import Mathlib

/-!
Verification of the glue rendering engine mesh pipeline.

Shallow embedding of the OBJ parser, the vertex deduplicator, the buffer
layout compiler and the mesh/shader handle state machine, translated from
src/asset/assets/msh.rs, src/renderer/handles/mesh.rs and
src/renderer/handles/shader.rs.

Modelling conventions:
- f32 scalars are modelled as rationals; the numeric carrier only transports
  values, no claim depends on IEEE rounding.
- Rust panics (index out of bounds, integer underflow, division by zero) are
  modelled as the value none of an Option result.
- Strings are processed as lists of characters with structurally recursive
  splitters mirroring str::lines, str::split and str::trim.
-/

set_option maxHeartbeats 1000000

/-- Rust str::split on a single separator character: always returns at least
one piece, empty pieces included. -/
def splitChar (sep : Char) : List Char → List (List Char)
  | [] => [[]]
  | c :: rest =>
    match splitChar sep rest with
    | [] => [[]]
    | p :: ps => if c = sep then [] :: p :: ps else (c :: p) :: ps

/-- Rust str::lines modelled as split_terminator on the newline character:
the final empty piece produced by a trailing newline is dropped. Per-line
carriage returns are handled by the trim the parser applies to each line. -/
def rustLines (cs : List Char) : List (List Char) :=
  let ps := splitChar '\n' cs
  if ps.getLast? = some [] then ps.dropLast else ps

/-- Rust str::trim restricted to ASCII whitespace. -/
def trimChars (cs : List Char) : List Char :=
  ((cs.dropWhile Char.isWhitespace).reverse.dropWhile Char.isWhitespace).reverse

def digitsToNat (ds : List Char) : Nat :=
  ds.foldl (fun a c => a * 10 + (c.toNat - 48)) 0

/-- Rust usize::from_str: optional plus sign, then one or more digits; values
not representable in 64 bits are a parse error. -/
def parseUsize (cs : List Char) : Option Nat :=
  let ds := match cs with
    | '+' :: r => r
    | r => r
  if ds ≠ [] ∧ ds.all Char.isDigit ∧ digitsToNat ds < 2 ^ 64 then
    some (digitsToNat ds)
  else
    none

/-- Executable carrier for f32 scalar values: the decimal fraction
num / 10 ^ exp. The pipeline only parses, copies and once computes 1 - v on
scalars, so an exact decimal fixed-point carrier transports them faithfully;
F32.val gives the rational meaning. -/
structure F32 where
  num : Int
  exp : Nat
deriving DecidableEq

instance (n : Nat) : OfNat F32 n := ⟨⟨n, 0⟩⟩

instance : Sub F32 :=
  ⟨fun a b => ⟨a.num * (10 : Int) ^ b.exp - b.num * (10 : Int) ^ a.exp, a.exp + b.exp⟩⟩

/-- Rational value of an F32 scalar. -/
def F32.val (a : F32) : ℚ := (a.num : ℚ) / (10 : ℚ) ^ a.exp

/-- Rust f32::from_str on plain decimal forms. Forms outside
sign-digits-point-digits are treated as a parse error; the claims never
depend on them. -/
def parseF32 (cs : List Char) : Option F32 :=
  let sr : Int × List Char :=
    match cs with
    | '-' :: r => (-1, r)
    | '+' :: r => (1, r)
    | r => (1, r)
  match splitChar '.' sr.2 with
  | [ip] =>
    if ip ≠ [] ∧ ip.all Char.isDigit then some ⟨sr.1 * digitsToNat ip, 0⟩ else none
  | [ip, fp] =>
    if (ip ≠ [] ∨ fp ≠ []) ∧ ip.all Char.isDigit ∧ fp.all Char.isDigit then
      some ⟨sr.1 * (digitsToNat ip * (10 : Int) ^ fp.length + digitsToNat fp), fp.length⟩
    else
      none
  | _ => none

/-- Monadic map over Option, written recursively so proofs can proceed by
structural induction. -/
def mapMO {α β : Type} (f : α → Option β) : List α → Option (List β)
  | [] => some []
  | a :: as => (f a).bind fun b => (mapMO f as).bind fun bs => some (b :: bs)

/-- The distinct elements of a list, keeping the first occurrence of each, in
order of first occurrence. Specification-side description of the insertion
order of the deduplication hash map. -/
def firstOccur {α : Type} [DecidableEq α] (l : List α) : List α :=
  l.foldl (fun acc k => if k ∈ acc then acc else acc ++ [k]) []

/-- Index of the first occurrence of an element in a list. -/
def idxOf {α : Type} [DecidableEq α] (a : α) : List α → Nat
  | [] => 0
  | b :: l => if b = a then 0 else idxOf a l + 1

/-- Association list pairing each key with its allocation index, mirroring
the contents of the deduplication hash map. -/
def enumKeys {α : Type} (n : Nat) : List α → List (α × Nat)
  | [] => []
  | k :: ks => (k, n) :: enumKeys (n + 1) ks

/-- Lookup in an association list, modelling HashMap::contains_key and
HashMap::index. -/
def assocFind {α : Type} [DecidableEq α] : List (α × Nat) → α → Option Nat
  | [], _ => none
  | (k, v) :: rest, a => if k = a then some v else assocFind rest a

/-! ## OBJ parser embedding (src/asset/assets/msh.rs, OBJ::parse) -/

abbrev Vec2 := F32 × F32

abbrev Vec3 := F32 × F32 × F32

abbrev Vec4 := F32 × F32 × F32 × F32

/-- ParseWords::parse_3_to_f32: reads words 1, 2, 3, each parsed with
fallback 0.0; a missing word is an index-out-of-bounds panic. -/
def parse_3_to_f32 (ws : List (List Char)) : Option Vec3 :=
  match ws.get? 1, ws.get? 2, ws.get? 3 with
  | some w1, some w2, some w3 =>
    some ((parseF32 w1).getD 0, (parseF32 w2).getD 0, (parseF32 w3).getD 0)
  | _, _, _ => none

/-- ParseWords::parse_2_to_f32: reads words 1 and 2 with fallback 0.0, then
replaces the second component v by 1 - v (the UV vertical flip). -/
def parse_2_to_f32 (ws : List (List Char)) : Option Vec2 :=
  match ws.get? 1, ws.get? 2 with
  | some w1, some w2 => some ((parseF32 w1).getD 0, 1 - (parseF32 w2).getD 0)
  | _, _ => none

/-- ParseWords::parse_to_usize: each slash-separated token is parsed with
fallback 1, then decremented; a token that parses to 0 underflows the
unsigned subtraction, which is a panic. -/
def parse_to_usize (tokens : List (List Char)) : Option (List Nat) :=
  mapMO
    (fun t =>
      match parseUsize t with
      | none => some 0
      | some 0 => none
      | some (n + 1) => some n)
    tokens

structure ScanState where
  pos_data : List Vec3
  uvm_data : List Vec2
  nrm_data : List Vec3
  verts : List (List Nat)
deriving DecidableEq

inductive ScanResult where
  | abort
  | nonTriangle (line : List Char)
  | ok (st : ScanState)
deriving DecidableEq

/-- One iteration of the line loop of OBJ::parse. The words.is_empty branch
of the source is unreachable because str::split always yields a piece. -/
def scanLine (st : ScanState) (raw : List Char) : ScanResult :=
  let line := trimChars raw
  let words := splitChar ' ' line
  match words with
  | [] => .ok st
  | w0 :: rest =>
    if w0 = ['v'] then
      match parse_3_to_f32 words with
      | none => .abort
      | some p => .ok { st with pos_data := st.pos_data ++ [p] }
    else if w0 = ['v', 't'] then
      match parse_2_to_f32 words with
      | none => .abort
      | some u => .ok { st with uvm_data := st.uvm_data ++ [u] }
    else if w0 = ['v', 'n'] then
      match parse_3_to_f32 words with
      | none => .abort
      | some nv => .ok { st with nrm_data := st.nrm_data ++ [nv] }
    else if w0 = ['f'] then
      if words.length ≠ 4 then
        .nonTriangle line
      else
        match mapMO (fun w => parse_to_usize (splitChar '/' w)) rest with
        | none => .abort
        | some vs => .ok { st with verts := st.verts ++ vs }
    else
      .ok st

def scanList : List (List Char) → ScanState → ScanResult
  | [], st => .ok st
  | l :: ls, st =>
    match scanLine st l with
    | .ok st2 => scanList ls st2
    | r => r

/-- A vertex key: the optional position, UV and normal sub-indices of one
face corner. -/
abbrev VKey := Option Nat × Option Nat × Option Nat

structure Pools where
  pos_data : List Vec3
  uvm_data : List Vec2
  nrm_data : List Vec3
deriving DecidableEq

structure DedupState where
  unique_verts : List (VKey × Nat)
  pos : List Vec3
  col : List Vec4
  uvm : List Vec2
  nrm : List Vec3
  ind : List Nat
deriving DecidableEq

/-- The def_uvm table of OBJ::parse; the argument is always i % 3. -/
def def_uvm : Nat → Vec2
  | 0 => (0, 0)
  | 1 => (0, 1)
  | _ => (1, 0)

def def_col : Vec4 := (1, 1, 1, 1)

def def_nrm : Vec3 := (1, 1, 1)

/-- vert[j] guarded by the per-file presence flag: reading a sub-index of a
corner that does not have one is an index-out-of-bounds panic. -/
def subIndexAt (present : Bool) (vert : List Nat) (j : Nat) : Option (Option Nat) :=
  if present then (vert.get? j).map some else some none

def cornerKey (pe ue ne : Bool) (vert : List Nat) : Option VKey := do
  let p ← subIndexAt pe vert 0
  let u ← subIndexAt ue vert 1
  let n ← subIndexAt ne vert 2
  pure (p, u, n)

/-- The pos_data read of a newly allocated vertex: the pooled entry of the
position sub-index (a panic when out of range), or the [0,0,0] fallback. -/
def lookupPos (P : Pools) (key : VKey) : Option Vec3 :=
  match key.1 with
  | some id => P.pos_data.get? id
  | none => some ((0 : F32), (0 : F32), (0 : F32))

/-- The uvm_data read of a newly allocated vertex, with the per-corner
default for an absent UV sub-index; v_local is corner index mod 3. -/
def lookupUvm (P : Pools) (key : VKey) (v_local : Nat) : Option Vec2 :=
  match key.2.1 with
  | some id => P.uvm_data.get? id
  | none => some (def_uvm v_local)

/-- The nrm_data read of a newly allocated vertex, with the [1,1,1] default
for an absent normal sub-index. -/
def lookupNrm (P : Pools) (key : VKey) : Option Vec3 :=
  match key.2.2 with
  | some id => P.nrm_data.get? id
  | none => some def_nrm

/-- The body of the deduplication loop of OBJ::parse, for corner number i. -/
def dedupStep (P : Pools) (pe ue ne : Bool) (i : Nat) (st : DedupState)
    (vert : List Nat) : Option DedupState :=
  match cornerKey pe ue ne vert with
  | none => none
  | some key =>
    match assocFind st.unique_verts key with
    | some idx => some { st with ind := st.ind ++ [idx] }
    | none =>
      match lookupPos P key, lookupUvm P key (i % 3), lookupNrm P key with
      | some posv, some uvmv, some nrmv =>
        some { unique_verts := st.unique_verts ++ [(key, st.pos.length)]
               pos := st.pos ++ [posv]
               col := st.col ++ [def_col]
               uvm := st.uvm ++ [uvmv]
               nrm := st.nrm ++ [nrmv]
               ind := st.ind ++ [st.pos.length] }
      | _, _, _ => none

def dedupLoop (P : Pools) (pe ue ne : Bool) : Nat → List (List Nat) → DedupState →
    Option DedupState
  | _, [], st => some st
  | i, v :: vs, st =>
    match dedupStep P pe ue ne i st v with
    | none => none
    | some st2 => dedupLoop P pe ue ne (i + 1) vs st2

inductive OBJ where
  | Parsed (pos_attr : List Vec3) (col_attr : List Vec4) (uvm_attr : List Vec2)
      (nrm_attr : List Vec3) (ind_attr : List Nat)
  | NonTriangle (line : String)
deriving DecidableEq

/-- OBJ::parse. The result none models a panic: reading verts[0] on a source
with no face corners, a malformed data line, a face corner token 0, or a
sub-index beyond the corresponding data pool. -/
def OBJ.parse (src : String) : Option OBJ :=
  match scanList (rustLines src.data) ⟨[], [], [], []⟩ with
  | .abort => none
  | .nonTriangle l => some (.NonTriangle (String.mk l))
  | .ok st =>
    match st.verts with
    | [] => none
    | v0 :: _ =>
      let attr_count := v0.length
      let pe := decide (0 < attr_count)
      let ue := decide (1 < attr_count)
      let ne := decide (2 < attr_count)
      match dedupLoop ⟨st.pos_data, st.uvm_data, st.nrm_data⟩ pe ue ne 0 st.verts
          ⟨[], [], [], [], [], []⟩ with
      | none => none
      | some d => some (.Parsed d.pos d.col d.uvm d.nrm d.ind)

/-! ## Mesh files and error propagation (src/asset/assets/msh.rs) -/

/-- The error kinds of GLueErrorKind used by the mesh path; the full
enumeration lives in the crate root outside the provided sources. -/
inductive GLueErrorKind where
  | WierdFile
  | NotTriangle
  | Missing
deriving DecidableEq

structure GLueError where
  kind : GLueErrorKind
  msg : String
deriving DecidableEq

/-- Modelled from the spec: the element scalar kinds of an AttributeInfo
(signed and unsigned 8, 16, 32 bit integers, 32 and 64 bit floats). The
defining file of ATTRType is not under the provided sources. -/
inductive ATTRType where
  | I8
  | U8
  | I16
  | U16
  | I32
  | U32
  | F32
  | F64
deriving DecidableEq

/-- Modelled from the spec: AttributeInfo describes one attribute shape via
element count and element byte width (field names follow the uses in
src: elem_count, byte_count, typ). Its defining file is not under the
provided sources. -/
structure ATTRInfo where
  elem_count : Nat
  byte_count : Nat
  typ : ATTRType
deriving DecidableEq

/-- Modelled from the spec: ATTRInfo::empty, the placeholder info of an
absent attribute (zero elements of zero width). -/
def ATTRInfo.empty : ATTRInfo := ⟨0, 0, .F32⟩

/-- Modelled from the spec: the AttributeInfo of a 3D position buffer,
3 elements of f32. -/
def pos3d_info : ATTRInfo := ⟨3, 4, .F32⟩

/-- Modelled from the spec: the AttributeInfo of a 2D position buffer,
2 elements of f32. -/
def pos2d_info : ATTRInfo := ⟨2, 4, .F32⟩

/-- Modelled from the spec: the AttributeInfo of a color buffer, 4 elements
of f32. -/
def col_info : ATTRInfo := ⟨4, 4, .F32⟩

/-- Modelled from the spec: the AttributeInfo of a UV buffer, 2 elements of
f32. -/
def uvm_info : ATTRInfo := ⟨2, 4, .F32⟩

/-- Modelled from the spec: the AttributeInfo of a normal buffer, 3 elements
of f32. -/
def nrm_info : ATTRInfo := ⟨3, 4, .F32⟩

/-- Modelled from the spec: a Custom attribute owns an arbitrary
AttributeInfo and a raw byte store. -/
structure CustomATTR where
  info : ATTRInfo
  data : List Nat
deriving DecidableEq

/-- Mesh3DFile with the fixed attribute buffers flattened to their data
lists; each fixed buffer carries the constant AttributeInfo given above. -/
structure Mesh3DFile where
  pos_attr : List Vec3
  col_attr : List Vec4
  uvm_attr : List Vec2
  nrm_attr : List Vec3
  ind_attr : List Nat
  cus_attrs : List CustomATTR
deriving DecidableEq

def Mesh3DFile.empty : Mesh3DFile := ⟨[], [], [], [], [], []⟩

def Mesh3DFile.starts_with_custom (m : Mesh3DFile) : Bool :=
  m.pos_attr.isEmpty && m.col_attr.isEmpty && m.uvm_attr.isEmpty && m.nrm_attr.isEmpty

def Mesh3DFile.has_no_attr (m : Mesh3DFile) : Bool :=
  m.starts_with_custom && m.cus_attrs.length == 0

/-- Mesh2DFile flattened the same way; layer and aspect take their
Mesh2DFile::empty values and do not participate in compilation. -/
structure Mesh2DFile where
  pos_attr : List Vec2
  col_attr : List Vec4
  uvm_attr : List Vec2
  ind_attr : List Nat
  cus_attrs : List CustomATTR
deriving DecidableEq

def Mesh2DFile.empty : Mesh2DFile := ⟨[], [], [], [], []⟩

def Mesh2DFile.starts_with_custom (m : Mesh2DFile) : Bool :=
  m.pos_attr.isEmpty && m.col_attr.isEmpty && m.uvm_attr.isEmpty

/-- The portion of Mesh3DFile::from_path that runs after the file has been
read: the match on OBJ::parse (msh.rs lines 171 to 192). File-system checks
are outside the embedding; none models a parser panic. -/
def Mesh3DFile.fromObjSource (path src : String) : Option (Except GLueError Mesh3DFile) :=
  match OBJ.parse src with
  | none => none
  | some (.NonTriangle line) =>
    some (.error ⟨.NotTriangle, path ++ " -> line " ++ line⟩)
  | some (.Parsed pos col uvm nrm ind) =>
    some (.ok ⟨pos, col, uvm, nrm, ind, []⟩)

/-! ## Buffer layout compiler (create_mesh3d_handle / create_mesh2d_handle) -/

/-- One byte of the interleaved buffer. Modelled from the spec: u8ify turns
an f32 element into its 4 bytes (index i of the bit pattern of the value);
a raw custom byte is transported unchanged. The defining file of u8ify is
not under the provided sources. -/
inductive Byte where
  | f32 (value : F32) (i : Fin 4)
  | raw (b : Nat)
deriving DecidableEq

def bytesF32 (v : F32) : List Byte :=
  [.f32 v 0, .f32 v 1, .f32 v 2, .f32 v 3]

def bytesVec2 (v : Vec2) : List Byte := bytesF32 v.1 ++ bytesF32 v.2

def bytesVec3 (v : Vec3) : List Byte := bytesF32 v.1 ++ bytesF32 v.2.1 ++ bytesF32 v.2.2

def bytesVec4 (v : Vec4) : List Byte :=
  bytesF32 v.1 ++ bytesF32 v.2.1 ++ bytesF32 v.2.2.1 ++ bytesF32 v.2.2.2

inductive DrawMode where
  | Points
  | Lines
  | Triangles
  | Strip
deriving DecidableEq

/-- DrawMode::default() is Triangles. -/
def DrawMode.default : DrawMode := .Triangles

/-- The CPU-visible fields of MeshHandle; the GPU ids returned by buffer
creation are opaque to the embedding. -/
structure MeshHandle where
  layouts : List (ATTRInfo × Nat)
  draw_mode : DrawMode
  has_indices : Bool
  vert_count : Nat
  ind_count : Nat
deriving DecidableEq

/-- The trace of one set_attr_layout call: info, attr_id, stride,
local_offset. -/
abbrev LayoutCall := ATTRInfo × Nat × Nat × Nat

/-- The sequential layout pass shared by both handle builders: one
set_attr_layout call per participating attribute, with the attr_id counter
and the running local_offset advanced per attribute. -/
def buildCalls : List ATTRInfo → Nat → Nat → Nat → List LayoutCall
  | [], _, _, _ => []
  | info :: rest, stride, attr_id, local_offset =>
    (info, attr_id, stride, local_offset) ::
      buildCalls rest stride (attr_id + 1) (local_offset + info.elem_count * info.byte_count)

/-- Everything create_mesh3d_handle computes: the returned MeshHandle, the
interleaved byte buffer handed to fill_buffer, the index buffer handed to
fill_index_buffer, the stride, and the set_attr_layout call trace. -/
structure MeshCompiled where
  handle : MeshHandle
  buffer : List Byte
  index_buffer : List Nat
  stride : Nat
  layout_calls : List LayoutCall
deriving DecidableEq

/-- One participating fixed attribute's contribution to the record of
vertex i: its element i encoded to bytes when the attribute participates
(a read past the buffer is a panic), nothing otherwise. -/
def attrPart {α : Type} (present : Bool) (data : List α) (i : Nat)
    (enc : α → List Byte) : Option (List Byte) :=
  if present then (data.get? i).map enc else some []

/-- One custom attribute's contribution to the record of vertex i: the raw
byte window i*size ..= (i+1)*size - 1. A zero element size (an underflowing
window bound) or a window past the store is a panic. -/
def cusPart (i : Nat) (c : CustomATTR) : Option (List Byte) :=
  let size := c.info.byte_count * c.info.elem_count
  if size = 0 then none
  else if (i + 1) * size ≤ c.data.length then
    some (((c.data.drop (i * size)).take size).map Byte.raw)
  else none

/-- The bytes the loop body of create_mesh3d_handle pushes for vertex i:
each participating fixed attribute's element i in the order position,
color, UV, normal, then each custom attribute's raw window. -/
def recordBytes3D (m : Mesh3DFile) (i : Nat) : Option (List Byte) :=
  match attrPart (!m.pos_attr.isEmpty) m.pos_attr i bytesVec3,
      attrPart (!m.col_attr.isEmpty) m.col_attr i bytesVec4,
      attrPart (!m.uvm_attr.isEmpty) m.uvm_attr i bytesVec2,
      attrPart (!m.nrm_attr.isEmpty) m.nrm_attr i bytesVec3,
      mapMO (cusPart i) m.cus_attrs with
  | some posPart, some colPart, some uvmPart, some nrmPart, some cusParts =>
    some (posPart ++ colPart ++ uvmPart ++ nrmPart ++ cusParts.flatten)
  | _, _, _, _, _ => none

/-- The stride accumulation of create_mesh3d_handle. -/
def strideOf3D (m : Mesh3DFile) : Nat :=
  (if !m.pos_attr.isEmpty then pos3d_info.elem_count * pos3d_info.byte_count else 0) +
  (if !m.col_attr.isEmpty then col_info.elem_count * col_info.byte_count else 0) +
  (if !m.uvm_attr.isEmpty then uvm_info.elem_count * uvm_info.byte_count else 0) +
  (if !m.nrm_attr.isEmpty then nrm_info.elem_count * nrm_info.byte_count else 0) +
  (m.cus_attrs.map (fun c => c.info.elem_count * c.info.byte_count)).sum

/-- The participating attribute infos of create_mesh3d_handle, in the order
position, color, UV, normal, then custom attributes in attachment order. -/
def partInfos3D (m : Mesh3DFile) : List ATTRInfo :=
  (if !m.pos_attr.isEmpty then [pos3d_info] else []) ++
  (if !m.col_attr.isEmpty then [col_info] else []) ++
  (if !m.uvm_attr.isEmpty then [uvm_info] else []) ++
  (if !m.nrm_attr.isEmpty then [nrm_info] else []) ++
  m.cus_attrs.map (fun c => c.info)

/-- The end bound of the interleave loop: pos_data.len(), overridden for a
mesh with no fixed attribute by the first custom attribute's element count
(indexing an empty custom list, or dividing by a zero element size, is a
panic). -/
def vendOf (starts_with_custom : Bool) (pos_len : Nat) (cus_attrs : List CustomATTR) :
    Option Nat :=
  if starts_with_custom then
    match cus_attrs with
    | [] => none
    | c0 :: _ =>
      let size0 := c0.info.byte_count * c0.info.elem_count
      if size0 = 0 then none else some (c0.data.length / size0)
  else
    some pos_len

/-- create_mesh3d_handle. GPU calls are kept as data: the buffer and
index_buffer fields are the payloads of fill_buffer and fill_index_buffer,
and layout_calls is the set_attr_layout trace. The result none models the
panics of the source: indexing cus_datas[0] on a mesh with no attribute at
all, dividing by a zero custom element size, or reading past a data
buffer. -/
def create_mesh3d_handle (m : Mesh3DFile) : Option MeshCompiled :=
  let stride := strideOf3D m
  match vendOf m.starts_with_custom m.pos_attr.length m.cus_attrs with
  | none => none
  | some vend =>
    match mapMO (recordBytes3D m) (List.range vend) with
    | none => none
    | some records =>
      let layout_calls := buildCalls (partInfos3D m) stride 0 0
      let hasInd := !m.ind_attr.isEmpty
      some { handle := { layouts := layout_calls.map (fun c => (c.1, c.2.1))
                         draw_mode := DrawMode.default
                         has_indices := hasInd
                         vert_count := vend
                         ind_count := if hasInd then m.ind_attr.length else 0 }
             buffer := records.flatten
             index_buffer := if hasInd then m.ind_attr else []
             stride := stride
             layout_calls := layout_calls }

/-- The loop body bytes of create_mesh2d_handle (no normal attribute). -/
def recordBytes2D (m : Mesh2DFile) (i : Nat) : Option (List Byte) :=
  match attrPart (!m.pos_attr.isEmpty) m.pos_attr i bytesVec2,
      attrPart (!m.col_attr.isEmpty) m.col_attr i bytesVec4,
      attrPart (!m.uvm_attr.isEmpty) m.uvm_attr i bytesVec2,
      mapMO (cusPart i) m.cus_attrs with
  | some posPart, some colPart, some uvmPart, some cusParts =>
    some (posPart ++ colPart ++ uvmPart ++ cusParts.flatten)
  | _, _, _, _ => none

def strideOf2D (m : Mesh2DFile) : Nat :=
  (if !m.pos_attr.isEmpty then pos2d_info.elem_count * pos2d_info.byte_count else 0) +
  (if !m.col_attr.isEmpty then col_info.elem_count * col_info.byte_count else 0) +
  (if !m.uvm_attr.isEmpty then uvm_info.elem_count * uvm_info.byte_count else 0) +
  (m.cus_attrs.map (fun c => c.info.elem_count * c.info.byte_count)).sum

def partInfos2D (m : Mesh2DFile) : List ATTRInfo :=
  (if !m.pos_attr.isEmpty then [pos2d_info] else []) ++
  (if !m.col_attr.isEmpty then [col_info] else []) ++
  (if !m.uvm_attr.isEmpty then [uvm_info] else []) ++
  m.cus_attrs.map (fun c => c.info)

/-- create_mesh2d_handle, with the same conventions as
create_mesh3d_handle. -/
def create_mesh2d_handle (m : Mesh2DFile) : Option MeshCompiled :=
  let stride := strideOf2D m
  match vendOf m.starts_with_custom m.pos_attr.length m.cus_attrs with
  | none => none
  | some vend =>
    match mapMO (recordBytes2D m) (List.range vend) with
    | none => none
    | some records =>
      let layout_calls := buildCalls (partInfos2D m) stride 0 0
      let hasInd := !m.ind_attr.isEmpty
      some { handle := { layouts := layout_calls.map (fun c => (c.1, c.2.1))
                         draw_mode := DrawMode.default
                         has_indices := hasInd
                         vert_count := vend
                         ind_count := if hasInd then m.ind_attr.length else 0 }
             buffer := records.flatten
             index_buffer := if hasInd then m.ind_attr else []
             stride := stride
             layout_calls := layout_calls }

/-! ## Shader handles and slot binding (src/renderer/handles/shader.rs,
src/renderer/handles/mesh.rs, src/asset/assets/shdr.rs) -/

inductive TexSlot where
  | S0
  | S1
  | S2
  | S3
  | S4
  | S5
  | S6
  | S7
  | S8
  | S9
  | S10
  | S11
deriving DecidableEq

def TexSlot.as_index : TexSlot → Nat
  | .S0 => 0
  | .S1 => 1
  | .S2 => 2
  | .S3 => 3
  | .S4 => 4
  | .S5 => 5
  | .S6 => 6
  | .S7 => 7
  | .S8 => 8
  | .S9 => 9
  | .S10 => 10
  | .S11 => 11

def TexSlot.total_slots : Nat := 12

inductive SBOSlot where
  | S0
  | S1
  | S2
  | S3
  | S4
  | S5
  | S6
  | S7
  | S8
  | S9
  | S10
  | S11
deriving DecidableEq

def SBOSlot.as_index : SBOSlot → Nat
  | .S0 => 0
  | .S1 => 1
  | .S2 => 2
  | .S3 => 3
  | .S4 => 4
  | .S5 => 5
  | .S6 => 6
  | .S7 => 7
  | .S8 => 8
  | .S9 => 9
  | .S10 => 10
  | .S11 => 11

def SBOSlot.total_slots : Nat := 12

/-- The CPU-visible fields of StorageBuffer (the GPU id and tracked size). -/
structure StorageBuffer where
  id : Nat
  size : Nat
deriving DecidableEq

structure Texture2D where
  id : Nat
deriving DecidableEq

/-- The slot state of a Shader; the workers field and the GPU program id
behaviour are irrelevant to the slot claims and are carried as plain data. -/
structure Shader where
  id : Nat
  is_compute : Bool
  tex_ids : List (Option Nat)
  sbo_ids : List (Option Nat)
deriving DecidableEq

/-- The slot arrays a shader is created with (shdr.rs: one None per slot in
both fixed-size arrays). -/
def Shader.new (id : Nat) (is_compute : Bool) : Shader :=
  ⟨id, is_compute, List.replicate TexSlot.total_slots none,
    List.replicate SBOSlot.total_slots none⟩

/-- Shader::set_tex_at_slot: writes the texture id into tex_ids at the slot
index. Writing past the array length would be a panic. -/
def Shader.set_tex_at_slot (s : Shader) (tex : Texture2D) (slot : TexSlot) : Option Shader :=
  if slot.as_index < s.tex_ids.length then
    some { s with tex_ids := s.tex_ids.set slot.as_index (some tex.id) }
  else
    none

/-- Shader::set_sbo_at_slot exactly as written in the source: it takes a
TexSlot and writes the storage buffer id into tex_ids, not into sbo_ids. -/
def Shader.set_sbo_at_slot (s : Shader) (sbo : StorageBuffer) (slot : TexSlot) : Option Shader :=
  if slot.as_index < s.tex_ids.length then
    some { s with tex_ids := s.tex_ids.set slot.as_index (some sbo.id) }
  else
    none

/-! ## Mesh entities and visibility (src/renderer/handles/mesh.rs) -/

/-- Mesh3D without its transform (spatial transforms are outside the
claims). -/
structure Mesh3D where
  visibility : Bool
  handle : MeshHandle
  shader : Option Shader
deriving DecidableEq

/-- Mesh2D without its transform. -/
structure Mesh2D where
  visibility : Bool
  handle : MeshHandle
  shader : Option Shader
deriving DecidableEq

/-- Mesh3DFile::ship: compile the mesh and wrap the handle with visibility
true and no shader. -/
def Mesh3DFile.ship (m : Mesh3DFile) : Option Mesh3D :=
  (create_mesh3d_handle m).map fun r => ⟨true, r.handle, none⟩

def Mesh2DFile.ship (m : Mesh2DFile) : Option Mesh2D :=
  (create_mesh2d_handle m).map fun r => ⟨true, r.handle, none⟩

def Mesh3D.vertex_count (m : Mesh3D) : Nat := m.handle.vert_count

def Mesh3D.is_empty (m : Mesh3D) : Bool := m.vertex_count == 0

def Mesh3D.is_visible (m : Mesh3D) : Bool := m.visibility || !m.is_empty

def Mesh3D.set_visibility (m : Mesh3D) (enable : Bool) : Mesh3D :=
  { m with visibility := enable }

def Mesh3D.toggle_visibility (m : Mesh3D) : Mesh3D :=
  { m with visibility := !m.visibility }

def Mesh2D.vertex_count (m : Mesh2D) : Nat := m.handle.vert_count

def Mesh2D.is_empty (m : Mesh2D) : Bool := m.vertex_count == 0

def Mesh2D.is_visible (m : Mesh2D) : Bool := m.visibility || !m.is_empty

def Mesh2D.set_visibility (m : Mesh2D) (enable : Bool) : Mesh2D :=
  { m with visibility := enable }

def Mesh2D.toggle_visibility (m : Mesh2D) : Mesh2D :=
  { m with visibility := !m.visibility }

/-- A sequence element of visibility calls. -/
inductive VisOp where
  | set (b : Bool)
  | toggle
deriving DecidableEq

def Mesh3D.applyVisOps (m : Mesh3D) : List VisOp → Mesh3D
  | [] => m
  | .set b :: ops => (m.set_visibility b).applyVisOps ops
  | .toggle :: ops => m.toggle_visibility.applyVisOps ops

def Mesh2D.applyVisOps (m : Mesh2D) : List VisOp → Mesh2D
  | [] => m
  | .set b :: ops => (m.set_visibility b).applyVisOps ops
  | .toggle :: ops => m.toggle_visibility.applyVisOps ops

/-! ## Specification-side description of the deduplication loop -/

/-- The position stored for a unique vertex with key k: the pooled entry of
its position sub-index, or the [0,0,0] fallback. -/
def posVal (P : Pools) (k : VKey) : Vec3 :=
  match k.1 with
  | some id => (P.pos_data.get? id).getD (0, 0, 0)
  | none => (0, 0, 0)

/-- The UV stored for a unique vertex with key k allocated at corner i: the
pooled entry of its UV sub-index, or the per-corner default def_uvm
(i % 3). -/
def uvmVal (P : Pools) (k : VKey) (i : Nat) : Vec2 :=
  match k.2.1 with
  | some id => (P.uvm_data.get? id).getD (0, 0)
  | none => def_uvm (i % 3)

/-- The normal stored for a unique vertex with key k: the pooled entry of
its normal sub-index, or the [1,1,1] fallback. -/
def nrmVal (P : Pools) (k : VKey) : Vec3 :=
  match k.2.2 with
  | some id => (P.nrm_data.get? id).getD (0, 0, 0)
  | none => def_nrm

/-- All sub-indices of the key point inside their pools. -/
def keyInRange (P : Pools) (k : VKey) : Prop :=
  (∀ id, k.1 = some id → id < P.pos_data.length) ∧
  (∀ id, k.2.1 = some id → id < P.uvm_data.length) ∧
  (∀ id, k.2.2 = some id → id < P.nrm_data.length)

/-- The deduplication state after processing the corners whose key list is
ks: the map holds the distinct keys in first-occurrence order with their
allocation indices, the attribute buffers hold one entry per distinct key,
and the index buffer maps every corner to the allocation index of its
key. -/
def sigmaState (P : Pools) (ks : List VKey) : DedupState :=
  let u := firstOccur ks
  { unique_verts := enumKeys 0 u
    pos := u.map (posVal P)
    col := List.replicate u.length def_col
    uvm := u.map (fun k => uvmVal P k (idxOf k ks))
    nrm := u.map (nrmVal P)
    ind := ks.map (fun k => idxOf k u) }

/-- The pools of a scan state, as used by the deduplication phase. -/
def ScanState.pools (st : ScanState) : Pools := ⟨st.pos_data, st.uvm_data, st.nrm_data⟩

/-! ## Scan-phase inversion lemmas -/

/-- A line whose first word (after trimming) is f. -/
def isFaceLine (raw : List Char) : Bool :=
  decide ((splitChar ' ' (trimChars raw)).head? = some ['f'])

/-- A face line whose word count differs from 4, that is, a face with a
corner count other than 3. -/
def isBadFace (raw : List Char) : Bool :=
  isFaceLine raw && decide ((splitChar ' ' (trimChars raw)).length ≠ 4)

/-- The UV entry a vt line contributes to the pool: the two parsed raw
components with the second one flipped to 1 - v. -/
def vtFlipped (ws : List (List Char)) : Vec2 :=
  ((parseF32 ((ws.get? 1).getD [])).getD 0, 1 - (parseF32 ((ws.get? 2).getD [])).getD 0)

/-- The per-line UV pool contribution. -/
def uvmContrib (raw : List Char) : List Vec2 :=
  let ws := splitChar ' ' (trimChars raw)
  if ws.head? = some ['v', 't'] then [vtFlipped ws] else []

/-! ## Layout and interleave lemmas -/

/-- The byte size of one element group of an attribute. -/
def attrSize (info : ATTRInfo) : Nat := info.elem_count * info.byte_count

/-! ## Parse-level corollaries -/

/-- The number of face lines of a source. -/
def faceLineCount (src : String) : Nat :=
  ((rustLines src.data).filter isFaceLine).length

/-- The concrete mesh of the stride invariant: one position (3 x f32) and
one UV (2 x f32), nothing else. -/
def mPosUvm : Mesh3DFile := ⟨[(0, 0, 0)], [], [(0, 0)], [], [], []⟩

/-! ## Theorems -/

theorem splitChar_ne_nil (sep : Char) (cs : List Char) : splitChar sep cs ≠ [] := by
  cases cs with
  | nil => simp [splitChar]
  | cons c rest =>
    simp only [splitChar]
    cases h : splitChar sep rest with
    | nil => simp
    | cons p ps =>
      by_cases hc : c = sep <;> simp [hc]

theorem F32.val_sub (a b : F32) : (a - b).val = a.val - b.val := by
  show ((a.num * (10 : Int) ^ b.exp - b.num * (10 : Int) ^ a.exp : Int) : ℚ) /
      (10 : ℚ) ^ (a.exp + b.exp) = _
  rw [F32.val, F32.val]
  push_cast
  rw [div_sub_div _ _ (by positivity) (by positivity)]
  rw [pow_add]
  ring_nf

theorem F32.val_ofNat (n : Nat) : (OfNat.ofNat n : F32).val = n := by
  show ((n : Int) : ℚ) / (10 : ℚ) ^ (0 : Nat) = n
  simp

theorem mapMO_cons_some {α β : Type} (f : α → Option β) {a : α} {as : List α} {r : List β}
    (h : mapMO f (a :: as) = some r) :
    ∃ b bs, f a = some b ∧ mapMO f as = some bs ∧ r = b :: bs := by
  cases hfa : f a with
  | none => rw [mapMO, hfa] at h; simp at h
  | some b =>
    cases hrest : mapMO f as with
    | none => rw [mapMO, hfa, hrest] at h; simp at h
    | some bs =>
      rw [mapMO, hfa, hrest] at h
      simp at h
      exact ⟨b, bs, rfl, rfl, h.symm⟩

theorem mapMO_length {α β : Type} (f : α → Option β) :
    ∀ {l : List α} {bs : List β}, mapMO f l = some bs → bs.length = l.length := by
  intro l
  induction l with
  | nil => intro bs h; simp [mapMO] at h; simp [← h]
  | cons a as ih =>
    intro bs h
    obtain ⟨b, bs2, _, hrest, hr⟩ := mapMO_cons_some f h
    subst hr
    simp [ih hrest]

theorem mapMO_append {α β : Type} (f : α → Option β) {l₁ l₂ : List α} {b₁ b₂ : List β}
    (h₁ : mapMO f l₁ = some b₁) (h₂ : mapMO f l₂ = some b₂) :
    mapMO f (l₁ ++ l₂) = some (b₁ ++ b₂) := by
  induction l₁ generalizing b₁ with
  | nil => simp [mapMO] at h₁; simp [← h₁, h₂]
  | cons a as ih =>
    obtain ⟨b, bs2, hfa, hrest, hr⟩ := mapMO_cons_some f h₁
    subst hr
    simp only [List.cons_append, mapMO, hfa, Option.bind, List.append_eq, ih hrest]

theorem firstOccur_foldl_mem {α : Type} [DecidableEq α] (l : List α) :
    ∀ (acc : List α) (x : α),
      x ∈ l.foldl (fun acc k => if k ∈ acc then acc else acc ++ [k]) acc ↔ x ∈ acc ∨ x ∈ l := by
  induction l with
  | nil => intro acc x; simp
  | cons a as ih =>
    intro acc x
    simp only [List.foldl_cons, ih, List.mem_cons]
    by_cases ha : a ∈ acc
    · simp only [if_pos ha]
      constructor
      · rintro (h | h)
        · exact Or.inl h
        · exact Or.inr (Or.inr h)
      · rintro (h | h | h)
        · exact Or.inl h
        · exact Or.inl (h ▸ ha)
        · exact Or.inr h
    · simp only [if_neg ha, List.mem_append, List.mem_singleton]
      tauto

theorem mem_firstOccur {α : Type} [DecidableEq α] {l : List α} {x : α} :
    x ∈ firstOccur l ↔ x ∈ l := by
  rw [firstOccur, firstOccur_foldl_mem]
  simp

theorem firstOccur_append_singleton {α : Type} [DecidableEq α] (l : List α) (a : α) :
    firstOccur (l ++ [a]) =
      if a ∈ firstOccur l then firstOccur l else firstOccur l ++ [a] := by
  rw [firstOccur, List.foldl_append]
  rfl

theorem firstOccur_length_le {α : Type} [DecidableEq α] (l : List α) :
    (firstOccur l).length ≤ l.length := by
  have h : ∀ (l : List α) (acc : List α),
      (l.foldl (fun acc k => if k ∈ acc then acc else acc ++ [k]) acc).length ≤
        acc.length + l.length := by
    intro l
    induction l with
    | nil => intro acc; simp
    | cons a as ih =>
      intro acc
      simp only [List.foldl_cons]
      refine le_trans (ih _) ?_
      by_cases ha : a ∈ acc
      · simp only [if_pos ha, List.length_cons]
        omega
      · simp only [if_neg ha, List.length_append, List.length_cons, List.length_nil]
        omega
  simpa using h l []

theorem idxOf_append_left {α : Type} [DecidableEq α] {a : α} {l : List α} (l' : List α)
    (h : a ∈ l) : idxOf a (l ++ l') = idxOf a l := by
  induction l with
  | nil => simp at h
  | cons b bs ih =>
    simp only [List.cons_append, idxOf]
    by_cases hb : b = a
    · simp [hb]
    · simp only [if_neg hb]
      have hm : a ∈ bs := by
        rcases List.mem_cons.mp h with h1 | h1
        · exact absurd h1.symm hb
        · exact h1
      exact congrArg (fun n => n + 1) (ih hm)

theorem idxOf_append_self {α : Type} [DecidableEq α] {a : α} {l : List α}
    (h : a ∉ l) : idxOf a (l ++ [a]) = l.length := by
  induction l with
  | nil => simp [idxOf]
  | cons b bs ih =>
    simp only [List.cons_append, idxOf, List.length_cons]
    have hb : b ≠ a := fun hba => h (hba ▸ List.mem_cons_self b bs)
    rw [if_neg hb]
    exact congrArg (fun n => n + 1) (ih (fun hm => h (List.mem_cons_of_mem b hm)))

theorem idxOf_lt_length {α : Type} [DecidableEq α] {a : α} {l : List α}
    (h : a ∈ l) : idxOf a l < l.length := by
  induction l with
  | nil => simp at h
  | cons b bs ih =>
    simp only [idxOf, List.length_cons]
    by_cases hb : b = a
    · simp [hb]
    · rw [if_neg hb]
      have : a ∈ bs := by
        rcases List.mem_cons.mp h with h1 | h1
        · exact absurd h1.symm hb
        · exact h1
      exact Nat.succ_lt_succ (ih this)

theorem enumKeys_append_singleton {α : Type} (n : Nat) (l : List α) (a : α) :
    enumKeys n (l ++ [a]) = enumKeys n l ++ [(a, n + l.length)] := by
  induction l generalizing n with
  | nil => simp [enumKeys]
  | cons b bs ih =>
    simp only [List.cons_append, enumKeys, List.length_cons]
    refine congrArg (fun t => (b, n) :: t) ?_
    rw [show bs.append [a] = bs ++ [a] from rfl, ih (n + 1)]
    have harith : n + 1 + bs.length = n + (bs.length + 1) := by omega
    rw [harith]

theorem assocFind_enumKeys {α : Type} [DecidableEq α] (n : Nat) (u : List α) (a : α) :
    assocFind (enumKeys n u) a = if a ∈ u then some (n + idxOf a u) else none := by
  induction u generalizing n with
  | nil => simp [enumKeys, assocFind]
  | cons b bs ih =>
    simp only [enumKeys, assocFind, idxOf]
    by_cases hb : b = a
    · subst hb
      simp
    · rw [if_neg hb, ih (n + 1)]
      by_cases hm : a ∈ bs
      · have : a ∈ b :: bs := List.mem_cons_of_mem b hm
        rw [if_pos hm, if_pos this, if_neg hb]
        congr 1
        omega
      · have : a ∉ b :: bs := by
          intro hc
          rcases List.mem_cons.mp hc with h1 | h1
          · exact hb h1.symm
          · exact hm h1
        rw [if_neg hm, if_neg this]

theorem sigmaState_nil (P : Pools) : sigmaState P [] = ⟨[], [], [], [], [], []⟩ := rfl

theorem lookupPos_some {P : Pools} {k : VKey} {v : Vec3} (h : lookupPos P k = some v) :
    v = posVal P k ∧ ∀ id, k.1 = some id → id < P.pos_data.length := by
  obtain ⟨kp, ku, kn⟩ := k
  cases kp with
  | none =>
    simp only [lookupPos, Option.some.injEq] at h
    exact ⟨by simp [posVal, ← h], fun id hid => by simp at hid⟩
  | some id =>
    simp only [lookupPos] at h
    refine ⟨by show v = (P.pos_data.get? id).getD (0, 0, 0); rw [h]; rfl,
      fun id' hid => ?_⟩
    simp only [Option.some.injEq] at hid
    subst hid
    exact (List.get?_eq_some.mp h).1

theorem lookupUvm_some {P : Pools} {k : VKey} {i : Nat} {v : Vec2}
    (h : lookupUvm P k (i % 3) = some v) :
    v = uvmVal P k i ∧ ∀ id, k.2.1 = some id → id < P.uvm_data.length := by
  obtain ⟨kp, ku, kn⟩ := k
  cases ku with
  | none =>
    simp only [lookupUvm, Option.some.injEq] at h
    exact ⟨by simp [uvmVal, ← h], fun id hid => by simp at hid⟩
  | some id =>
    simp only [lookupUvm] at h
    refine ⟨by show v = (P.uvm_data.get? id).getD (0, 0); rw [h]; rfl,
      fun id' hid => ?_⟩
    simp only [Option.some.injEq] at hid
    subst hid
    exact (List.get?_eq_some.mp h).1

theorem lookupNrm_some {P : Pools} {k : VKey} {v : Vec3} (h : lookupNrm P k = some v) :
    v = nrmVal P k ∧ ∀ id, k.2.2 = some id → id < P.nrm_data.length := by
  obtain ⟨kp, ku, kn⟩ := k
  cases kn with
  | none =>
    simp only [lookupNrm, Option.some.injEq] at h
    exact ⟨by simp [nrmVal, ← h], fun id hid => by simp at hid⟩
  | some id =>
    simp only [lookupNrm] at h
    refine ⟨by show v = (P.nrm_data.get? id).getD (0, 0, 0); rw [h]; rfl,
      fun id' hid => ?_⟩
    simp only [Option.some.injEq] at hid
    subst hid
    exact (List.get?_eq_some.mp h).1

theorem sigmaState_append_mem (P : Pools) (ks0 : List VKey) (k : VKey) (hmem : k ∈ ks0) :
    sigmaState P (ks0 ++ [k]) =
      ⟨(sigmaState P ks0).unique_verts, (sigmaState P ks0).pos, (sigmaState P ks0).col,
        (sigmaState P ks0).uvm, (sigmaState P ks0).nrm,
        (sigmaState P ks0).ind ++ [idxOf k (firstOccur ks0)]⟩ := by
  have hmu : k ∈ firstOccur ks0 := mem_firstOccur.mpr hmem
  have hfo : firstOccur (ks0 ++ [k]) = firstOccur ks0 := by
    rw [firstOccur_append_singleton, if_pos hmu]
  simp only [sigmaState, hfo]
  congr 1
  · exact List.map_congr_left fun k' hk' =>
      congrArg (uvmVal P k') (idxOf_append_left [k] (mem_firstOccur.mp hk'))
  · rw [List.map_append]
    rfl

theorem sigmaState_append_new (P : Pools) (ks0 : List VKey) (k : VKey) (hmem : k ∉ ks0) :
    sigmaState P (ks0 ++ [k]) =
      ⟨(sigmaState P ks0).unique_verts ++ [(k, (firstOccur ks0).length)],
        (sigmaState P ks0).pos ++ [posVal P k],
        (sigmaState P ks0).col ++ [def_col],
        (sigmaState P ks0).uvm ++ [uvmVal P k ks0.length],
        (sigmaState P ks0).nrm ++ [nrmVal P k],
        (sigmaState P ks0).ind ++ [(firstOccur ks0).length]⟩ := by
  have hmu : k ∉ firstOccur ks0 := fun hc => hmem (mem_firstOccur.mp hc)
  have hfo : firstOccur (ks0 ++ [k]) = firstOccur ks0 ++ [k] := by
    rw [firstOccur_append_singleton, if_neg hmu]
  simp only [sigmaState, hfo]
  congr 1
  · rw [enumKeys_append_singleton]
    simp
  · rw [List.map_append]
    rfl
  · simp [List.length_append, List.replicate_add]
  · rw [List.map_append]
    refine congrArg₂ _ ?_ ?_
    · exact List.map_congr_left fun k' hk' =>
        congrArg (uvmVal P k') (idxOf_append_left [k] (mem_firstOccur.mp hk'))
    · simp [idxOf_append_self hmem]
  · rw [List.map_append]
    rfl
  · rw [List.map_append]
    refine congrArg₂ _ ?_ ?_
    · exact List.map_congr_left fun k' hk' => by
        rw [idxOf_append_left [k] (mem_firstOccur.mpr hk')]
    · simp [idxOf_append_self hmu]

theorem dedupStep_char (P : Pools) (pe ue ne : Bool) (ks0 : List VKey) (v : List Nat)
    (st' : DedupState) (hks0 : ∀ k ∈ ks0, keyInRange P k)
    (h : dedupStep P pe ue ne ks0.length (sigmaState P ks0) v = some st') :
    ∃ k, cornerKey pe ue ne v = some k ∧ st' = sigmaState P (ks0 ++ [k]) ∧
      ∀ k' ∈ ks0 ++ [k], keyInRange P k' := by
  rw [dedupStep] at h
  cases hkey : cornerKey pe ue ne v with
  | none => rw [hkey] at h; simp at h
  | some k =>
    rw [hkey] at h
    refine ⟨k, rfl, ?_⟩
    have hfind : assocFind (sigmaState P ks0).unique_verts k =
        if k ∈ firstOccur ks0 then some (idxOf k (firstOccur ks0)) else none := by
      show assocFind (enumKeys 0 (firstOccur ks0)) k = _
      rw [assocFind_enumKeys]
      by_cases hm : k ∈ firstOccur ks0
      · simp [hm]
      · simp [hm]
    by_cases hmem : k ∈ ks0
    · have hmu : k ∈ firstOccur ks0 := mem_firstOccur.mpr hmem
      simp only [hfind, if_pos hmu, Option.some.injEq] at h
      subst h
      refine ⟨(sigmaState_append_mem P ks0 k hmem).symm, ?_⟩
      intro k' hk'
      rcases List.mem_append.mp hk' with h1 | h1
      · exact hks0 k' h1
      · rw [List.mem_singleton.mp h1]
        exact hks0 k hmem
    · have hmu : k ∉ firstOccur ks0 := fun hc => hmem (mem_firstOccur.mp hc)
      simp only [hfind, if_neg hmu] at h
      cases hlp : lookupPos P k with
      | none => simp only [hlp] at h; exact absurd h (by simp)
      | some posv =>
        cases hlu : lookupUvm P k (ks0.length % 3) with
        | none => simp only [hlp, hlu] at h; exact absurd h (by simp)
        | some uvmv =>
          cases hln : lookupNrm P k with
          | none => simp only [hlp, hlu, hln] at h; exact absurd h (by simp)
          | some nrmv =>
            simp only [hlp, hlu, hln, Option.some.injEq] at h
            obtain ⟨hpv, hpr⟩ := lookupPos_some hlp
            obtain ⟨huv, hur⟩ := lookupUvm_some hlu
            obtain ⟨hnv, hnr⟩ := lookupNrm_some hln
            constructor
            · subst h
              rw [sigmaState_append_new P ks0 k hmem]
              have hlen : (sigmaState P ks0).pos.length = (firstOccur ks0).length := by
                simp [sigmaState]
              rw [hpv, huv, hnv, hlen]
            · intro k' hk'
              rcases List.mem_append.mp hk' with h1 | h1
              · exact hks0 k' h1
              · rw [List.mem_singleton.mp h1]
                exact ⟨hpr, hur, hnr⟩

theorem dedupLoop_char (P : Pools) (pe ue ne : Bool) :
    ∀ (vs : List (List Nat)) (ks0 : List VKey) (d : DedupState),
      (∀ k ∈ ks0, keyInRange P k) →
      dedupLoop P pe ue ne ks0.length vs (sigmaState P ks0) = some d →
      ∃ ks, mapMO (cornerKey pe ue ne) vs = some ks ∧ d = sigmaState P (ks0 ++ ks) ∧
        ∀ k ∈ ks0 ++ ks, keyInRange P k := by
  intro vs
  induction vs with
  | nil =>
    intro ks0 d hr h
    simp only [dedupLoop, Option.some.injEq] at h
    exact ⟨[], by simp [mapMO], by simp [← h], by simpa using hr⟩
  | cons v vs ih =>
    intro ks0 d hr h
    rw [dedupLoop] at h
    cases hstep : dedupStep P pe ue ne ks0.length (sigmaState P ks0) v with
    | none => rw [hstep] at h; simp at h
    | some st2 =>
      rw [hstep] at h
      obtain ⟨k, hk, hst2, hrange⟩ := dedupStep_char P pe ue ne ks0 v st2 hr hstep
      subst hst2
      have hlen : ks0.length + 1 = (ks0 ++ [k]).length := by simp
      rw [hlen] at h
      obtain ⟨ks, hmap, hd, hrange2⟩ := ih (ks0 ++ [k]) d hrange h
      refine ⟨k :: ks, ?_, ?_, ?_⟩
      · rw [mapMO, hk, hmap]
        rfl
      · rw [hd, List.append_assoc]
        rfl
      · intro k' hk'
        apply hrange2
        simp only [List.append_assoc, List.singleton_append, List.mem_append,
          List.mem_cons] at hk' ⊢
        tauto

/-- Full characterization of a successful OBJ::parse: the corner keys ks of
the face corners determine every output buffer through the
first-occurrence deduplication order. -/
theorem OBJ.parse_char {src : String} {p : List Vec3} {c : List Vec4} {u : List Vec2}
    {n : List Vec3} {ind : List Nat}
    (h : OBJ.parse src = some (.Parsed p c u n ind)) :
    ∃ st v0 rest ks,
      scanList (rustLines src.data) ⟨[], [], [], []⟩ = .ok st ∧
      st.verts = v0 :: rest ∧
      mapMO (cornerKey (decide (0 < v0.length)) (decide (1 < v0.length))
        (decide (2 < v0.length))) st.verts = some ks ∧
      (∀ k ∈ ks, keyInRange st.pools k) ∧
      p = (firstOccur ks).map (posVal st.pools) ∧
      c = List.replicate (firstOccur ks).length def_col ∧
      u = (firstOccur ks).map (fun k => uvmVal st.pools k (idxOf k ks)) ∧
      n = (firstOccur ks).map (nrmVal st.pools) ∧
      ind = ks.map (fun k => idxOf k (firstOccur ks)) := by
  rw [OBJ.parse] at h
  cases hscan : scanList (rustLines src.data) ⟨[], [], [], []⟩ with
  | abort => rw [hscan] at h; simp at h
  | nonTriangle l => rw [hscan] at h; simp at h
  | ok st =>
    simp only [hscan] at h
    cases hver : st.verts with
    | nil => simp only [hver] at h; exact absurd h (by simp)
    | cons v0 rest =>
      simp only [hver] at h
      cases hloop : dedupLoop st.pools (decide (0 < v0.length)) (decide (1 < v0.length))
          (decide (2 < v0.length)) 0 (v0 :: rest) ⟨[], [], [], [], [], []⟩ with
      | none =>
        rw [show (⟨st.pos_data, st.uvm_data, st.nrm_data⟩ : Pools) = st.pools from rfl] at h
        rw [hloop] at h
        simp at h
      | some d =>
        rw [show (⟨st.pos_data, st.uvm_data, st.nrm_data⟩ : Pools) = st.pools from rfl] at h
        rw [hloop] at h
        simp only [Option.some.injEq, OBJ.Parsed.injEq] at h
        have hloop2 : dedupLoop st.pools (decide (0 < v0.length)) (decide (1 < v0.length))
            (decide (2 < v0.length)) (List.length ([] : List VKey)) (v0 :: rest)
            (sigmaState st.pools []) = some d := by
          rw [sigmaState_nil]
          exact hloop
        obtain ⟨ks, hmap, hd, hrange⟩ := dedupLoop_char st.pools _ _ _ (v0 :: rest) [] d
          (by intro k hk; simp at hk) hloop2
        refine ⟨st, v0, rest, ks, rfl, hver, by rw [hver]; exact hmap, ?_, ?_, ?_, ?_, ?_, ?_⟩
        · intro k hk
          exact hrange k (by simpa using hk)
        · rw [← h.1, hd]; rfl
        · rw [← h.2.1, hd]; rfl
        · rw [← h.2.2.1, hd]; rfl
        · rw [← h.2.2.2.1, hd]; rfl
        · rw [← h.2.2.2.2, hd]; rfl

theorem parse_2_to_f32_some {ws : List (List Char)} {u : Vec2}
    (h : parse_2_to_f32 ws = some u) : u = vtFlipped ws := by
  rw [parse_2_to_f32] at h
  cases h1 : ws.get? 1 with
  | none => rw [h1] at h; simp at h
  | some w1 =>
    cases h2 : ws.get? 2 with
    | none => rw [h1, h2] at h; simp at h
    | some w2 =>
      rw [h1, h2] at h
      simp only [Option.some.injEq] at h
      rw [← h, vtFlipped, h1, h2]
      rfl

theorem scanLine_badFace (st : ScanState) (raw : List Char) (h : isBadFace raw = true) :
    scanLine st raw = .nonTriangle (trimChars raw) := by
  rw [isBadFace, isFaceLine, Bool.and_eq_true, decide_eq_true_eq, decide_eq_true_eq] at h
  obtain ⟨hw0, hlen⟩ := h
  rw [scanLine]
  cases hws : splitChar ' ' (trimChars raw) with
  | nil => rw [hws] at hw0; simp at hw0
  | cons w0 rest =>
    rw [hws] at hw0 hlen
    simp only [List.head?, Option.some.injEq] at hw0
    subst hw0
    simp only [hws]
    rw [if_neg (by decide), if_neg (by decide), if_neg (by decide)]
    simp only [List.length_cons] at hlen
    have hlen2 : ¬rest.length = 3 := by omega
    simp [hlen2]

theorem scanLine_nonTriangle_inv {st : ScanState} {raw l : List Char}
    (h : scanLine st raw = .nonTriangle l) :
    isBadFace raw = true ∧ l = trimChars raw := by
  rw [scanLine] at h
  cases hws : splitChar ' ' (trimChars raw) with
  | nil => rw [hws] at h; simp at h
  | cons w0 rest =>
    rw [hws] at h
    simp only at h
    by_cases hv : w0 = ['v']
    · rw [if_pos hv] at h
      cases hp : parse_3_to_f32 (w0 :: rest) <;> rw [hp] at h <;> simp at h
    · rw [if_neg hv] at h
      by_cases hvt : w0 = ['v', 't']
      · rw [if_pos hvt] at h
        cases hp : parse_2_to_f32 (w0 :: rest) <;> rw [hp] at h <;> simp at h
      · rw [if_neg hvt] at h
        by_cases hvn : w0 = ['v', 'n']
        · rw [if_pos hvn] at h
          cases hp : parse_3_to_f32 (w0 :: rest) <;> rw [hp] at h <;> simp at h
        · rw [if_neg hvn] at h
          by_cases hf : w0 = ['f']
          · rw [if_pos hf] at h
            by_cases hlen : (w0 :: rest).length ≠ 4
            · rw [if_pos hlen] at h
              simp only [ScanResult.nonTriangle.injEq] at h
              subst hf
              refine ⟨?_, h.symm⟩
              rw [isBadFace, isFaceLine, hws]
              simp only [List.head?, Bool.and_eq_true, decide_eq_true_eq]
              exact ⟨trivial, hlen⟩
            · rw [if_neg hlen] at h
              cases hp : mapMO (fun w => parse_to_usize (splitChar '/' w)) rest <;>
                rw [hp] at h <;> simp at h
          · rw [if_neg hf] at h
            simp at h

theorem scanLine_ok_inv {st st2 : ScanState} {raw : List Char}
    (h : scanLine st raw = .ok st2) :
    st2.verts.length = st.verts.length + (if isFaceLine raw then 3 else 0) ∧
    st2.uvm_data = st.uvm_data ++ uvmContrib raw := by
  rw [scanLine] at h
  cases hws : splitChar ' ' (trimChars raw) with
  | nil =>
    rw [hws] at h
    simp only [ScanResult.ok.injEq] at h
    subst h
    have : isFaceLine raw = false := by rw [isFaceLine, hws]; simp
    rw [this]
    simp [uvmContrib, hws]
  | cons w0 rest =>
    rw [hws] at h
    simp only at h
    have hface : isFaceLine raw = decide (w0 = ['f']) := by
      rw [isFaceLine, hws]
      simp [List.head?]
    have hcontrib : uvmContrib raw = if w0 = ['v', 't'] then [vtFlipped (w0 :: rest)] else [] := by
      rw [uvmContrib]
      simp only [hws, List.head?, Option.some.injEq]
    by_cases hv : w0 = ['v']
    · rw [if_pos hv] at h
      cases hp : parse_3_to_f32 (w0 :: rest) with
      | none => rw [hp] at h; simp at h
      | some p =>
        rw [hp] at h
        simp only [ScanResult.ok.injEq] at h
        subst h
        rw [hface, hcontrib]
        have hne : w0 ≠ ['f'] := by rw [hv]; decide
        have hne2 : w0 ≠ ['v', 't'] := by rw [hv]; decide
        simp [hne, hne2]
    · rw [if_neg hv] at h
      by_cases hvt : w0 = ['v', 't']
      · rw [if_pos hvt] at h
        cases hp : parse_2_to_f32 (w0 :: rest) with
        | none => rw [hp] at h; simp at h
        | some u =>
          rw [hp] at h
          simp only [ScanResult.ok.injEq] at h
          subst h
          rw [hface, hcontrib]
          have hne : w0 ≠ ['f'] := by rw [hvt]; decide
          subst hvt
          simp [hne, parse_2_to_f32_some hp]
      · rw [if_neg hvt] at h
        by_cases hvn : w0 = ['v', 'n']
        · rw [if_pos hvn] at h
          cases hp : parse_3_to_f32 (w0 :: rest) with
          | none => rw [hp] at h; simp at h
          | some nv =>
            rw [hp] at h
            simp only [ScanResult.ok.injEq] at h
            subst h
            rw [hface, hcontrib]
            have hne : w0 ≠ ['f'] := by rw [hvn]; decide
            simp [hne, hvt]
        · rw [if_neg hvn] at h
          by_cases hf : w0 = ['f']
          · rw [if_pos hf] at h
            by_cases hlen : (w0 :: rest).length ≠ 4
            · rw [if_pos hlen] at h
              simp at h
            · rw [if_neg hlen] at h
              cases hp : mapMO (fun w => parse_to_usize (splitChar '/' w)) rest with
              | none => rw [hp] at h; simp at h
              | some vs =>
                rw [hp] at h
                simp only [ScanResult.ok.injEq] at h
                subst h
                rw [hface, hcontrib]
                have hvs : vs.length = rest.length := mapMO_length _ hp
                have hrest : rest.length = 3 := by
                  simp only [List.length_cons, not_not] at hlen
                  omega
                have hne2 : w0 ≠ ['v', 't'] := by rw [hf]; decide
                simp [hf, hne2, hvs, hrest]
          · rw [if_neg hf] at h
            simp only [ScanResult.ok.injEq] at h
            subst h
            rw [hface, hcontrib]
            simp [hf, hvt]

theorem scanList_append (l1 l2 : List (List Char)) (st : ScanState) :
    scanList (l1 ++ l2) st =
      match scanList l1 st with
      | .ok st2 => scanList l2 st2
      | r => r := by
  induction l1 generalizing st with
  | nil => simp [scanList]
  | cons a as ih =>
    simp only [List.cons_append, scanList]
    cases scanLine st a with
    | ok st2 => exact ih st2
    | abort => rfl
    | nonTriangle l => rfl

theorem scanList_ok_inv : ∀ (ls : List (List Char)) (st st' : ScanState),
    scanList ls st = .ok st' →
    st'.verts.length = st.verts.length + 3 * (ls.filter isFaceLine).length ∧
    st'.uvm_data = st.uvm_data ++ (ls.map uvmContrib).flatten := by
  intro ls
  induction ls with
  | nil =>
    intro st st' h
    simp only [scanList, ScanResult.ok.injEq] at h
    subst h
    simp
  | cons a as ih =>
    intro st st' h
    rw [scanList] at h
    cases hline : scanLine st a with
    | abort => rw [hline] at h; simp at h
    | nonTriangle l => rw [hline] at h; simp at h
    | ok st2 =>
      rw [hline] at h
      obtain ⟨hlen, huvm⟩ := scanLine_ok_inv hline
      obtain ⟨hlen2, huvm2⟩ := ih st2 st' h
      constructor
      · rw [hlen2, hlen, List.filter]
        cases hf : isFaceLine a <;> (simp; try omega)
      · rw [huvm2, huvm, List.map_cons, List.flatten_cons, List.append_assoc]

theorem scanList_nonTriangle_inv : ∀ (ls : List (List Char)) (st : ScanState)
    (l : List Char), scanList ls st = .nonTriangle l →
    ∃ raw, ls.find? isBadFace = some raw ∧ l = trimChars raw := by
  intro ls
  induction ls with
  | nil => intro st l h; simp [scanList] at h
  | cons a as ih =>
    intro st l h
    rw [scanList] at h
    cases hline : scanLine st a with
    | abort => rw [hline] at h; simp at h
    | nonTriangle l2 =>
      rw [hline] at h
      simp only [ScanResult.nonTriangle.injEq] at h
      subst h
      obtain ⟨hbad, hl⟩ := scanLine_nonTriangle_inv hline
      exact ⟨a, by rw [List.find?_cons_of_pos _ hbad], hl⟩
    | ok st2 =>
      rw [hline] at h
      have hnotbad : isBadFace a = false := by
        cases hb : isBadFace a with
        | false => rfl
        | true =>
          rw [scanLine_badFace st a hb] at hline
          simp at hline
      obtain ⟨raw, hfind, hl⟩ := ih st2 l h
      refine ⟨raw, ?_, hl⟩
      rw [List.find?_cons_of_neg _ (by simp [hnotbad]), hfind]

theorem scanList_first_badFace (pre : List (List Char)) (raw : List Char)
    (post : List (List Char)) (st st1 : ScanState)
    (hpre : scanList pre st = .ok st1) (hbad : isBadFace raw = true) :
    scanList (pre ++ raw :: post) st = .nonTriangle (trimChars raw) := by
  rw [scanList_append, hpre]
  show (match scanLine st1 raw with
    | .ok st2 => scanList post st2
    | r => r) = _
  rw [scanLine_badFace st1 raw hbad]

theorem bytesVec2_length (v : Vec2) : (bytesVec2 v).length = 8 := rfl

theorem bytesVec3_length (v : Vec3) : (bytesVec3 v).length = 12 := rfl

theorem bytesVec4_length (v : Vec4) : (bytesVec4 v).length = 16 := rfl

theorem attrPart_length {α : Type} {present : Bool} {data : List α} {i : Nat}
    {enc : α → List Byte} {bs : List Byte} {sz : Nat}
    (h : attrPart present data i enc = some bs) (hsz : ∀ x, (enc x).length = sz) :
    bs.length = if present then sz else 0 := by
  rw [attrPart] at h
  cases present with
  | false => simp at h; simp [← h]
  | true =>
    simp only [if_pos rfl] at h
    cases hg : data.get? i with
    | none => rw [hg] at h; simp at h
    | some x =>
      rw [hg] at h
      simp at h
      simp [← h, hsz]

theorem cusPart_length {i : Nat} {c : CustomATTR} {bs : List Byte}
    (h : cusPart i c = some bs) : bs.length = attrSize c.info := by
  rw [cusPart] at h
  by_cases h0 : c.info.byte_count * c.info.elem_count = 0
  · rw [if_pos h0] at h; simp at h
  · rw [if_neg h0] at h
    by_cases hle : (i + 1) * (c.info.byte_count * c.info.elem_count) ≤ c.data.length
    · rw [if_pos hle] at h
      simp only [Option.some.injEq] at h
      subst h
      simp only [List.length_map, List.length_take, List.length_drop]
      rw [attrSize, Nat.mul_comm c.info.elem_count c.info.byte_count]
      have hexp : (i + 1) * (c.info.byte_count * c.info.elem_count) =
          i * (c.info.byte_count * c.info.elem_count) + c.info.byte_count * c.info.elem_count := by
        ring
      rw [hexp] at hle
      omega
    · rw [if_neg hle] at h; simp at h

theorem mapMO_flatten_length {α : Type} {f : α → Option (List Byte)} {sz : α → Nat}
    (hf : ∀ a bs, f a = some bs → bs.length = sz a) :
    ∀ {l : List α} {parts : List (List Byte)}, mapMO f l = some parts →
      parts.flatten.length = (l.map sz).sum := by
  intro l
  induction l with
  | nil =>
    intro parts h
    simp only [mapMO, Option.some.injEq] at h
    subst h
    simp
  | cons a as ih =>
    intro parts h
    obtain ⟨b, bs, hfa, hrest, hr⟩ := mapMO_cons_some f h
    subst hr
    simp only [List.flatten_cons, List.length_append, List.map_cons, List.sum_cons]
    rw [hf a b hfa, ih hrest]

theorem recordBytes3D_length {m : Mesh3DFile} {i : Nat} {bs : List Byte}
    (h : recordBytes3D m i = some bs) : bs.length = strideOf3D m := by
  rw [recordBytes3D] at h
  cases hp : attrPart (!m.pos_attr.isEmpty) m.pos_attr i bytesVec3 with
  | none => rw [hp] at h; simp at h
  | some posPart =>
  cases hc : attrPart (!m.col_attr.isEmpty) m.col_attr i bytesVec4 with
  | none => rw [hp, hc] at h; simp at h
  | some colPart =>
  cases hu : attrPart (!m.uvm_attr.isEmpty) m.uvm_attr i bytesVec2 with
  | none => rw [hp, hc, hu] at h; simp at h
  | some uvmPart =>
  cases hn : attrPart (!m.nrm_attr.isEmpty) m.nrm_attr i bytesVec3 with
  | none => rw [hp, hc, hu, hn] at h; simp at h
  | some nrmPart =>
  cases hcu : mapMO (cusPart i) m.cus_attrs with
  | none => rw [hp, hc, hu, hn, hcu] at h; simp at h
  | some cusParts =>
    rw [hp, hc, hu, hn, hcu] at h
    simp only [Option.some.injEq] at h
    subst h
    have l1 := attrPart_length hp bytesVec3_length
    have l2 := attrPart_length hc bytesVec4_length
    have l3 := attrPart_length hu bytesVec2_length
    have l4 := attrPart_length hn bytesVec3_length
    have l5 := mapMO_flatten_length (fun c bs hcb => cusPart_length hcb) hcu
    simp only [List.length_append, l1, l2, l3, l4, l5, strideOf3D, attrSize, pos3d_info,
      col_info, uvm_info, nrm_info]

theorem recordBytes2D_length {m : Mesh2DFile} {i : Nat} {bs : List Byte}
    (h : recordBytes2D m i = some bs) : bs.length = strideOf2D m := by
  rw [recordBytes2D] at h
  cases hp : attrPart (!m.pos_attr.isEmpty) m.pos_attr i bytesVec2 with
  | none => rw [hp] at h; simp at h
  | some posPart =>
  cases hc : attrPart (!m.col_attr.isEmpty) m.col_attr i bytesVec4 with
  | none => rw [hp, hc] at h; simp at h
  | some colPart =>
  cases hu : attrPart (!m.uvm_attr.isEmpty) m.uvm_attr i bytesVec2 with
  | none => rw [hp, hc, hu] at h; simp at h
  | some uvmPart =>
  cases hcu : mapMO (cusPart i) m.cus_attrs with
  | none => rw [hp, hc, hu, hcu] at h; simp at h
  | some cusParts =>
    rw [hp, hc, hu, hcu] at h
    simp only [Option.some.injEq] at h
    subst h
    have l1 := attrPart_length hp bytesVec2_length
    have l2 := attrPart_length hc bytesVec4_length
    have l3 := attrPart_length hu bytesVec2_length
    have l5 := mapMO_flatten_length (fun c bs hcb => cusPart_length hcb) hcu
    simp only [List.length_append, l1, l2, l3, l5, strideOf2D, attrSize, pos2d_info,
      col_info, uvm_info]

theorem flatten_const_length {records : List (List Byte)} {s : Nat}
    (h : ∀ b ∈ records, b.length = s) :
    records.flatten.length = records.length * s := by
  induction records with
  | nil => simp
  | cons r rs ih =>
    simp only [List.flatten_cons, List.length_append, List.length_cons]
    rw [h r (List.mem_cons_self r rs), ih (fun b hb => h b (List.mem_cons_of_mem r hb))]
    ring

theorem buildCalls_length (infos : List ATTRInfo) (s a o : Nat) :
    (buildCalls infos s a o).length = infos.length := by
  induction infos generalizing a o with
  | nil => rfl
  | cons inf rest ih => simp [buildCalls, ih]

theorem buildCalls_get? (infos : List ATTRInfo) (s a o : Nat) (j : Nat) :
    (buildCalls infos s a o).get? j =
      (infos.get? j).map
        (fun inf => (inf, a + j, s, o + ((infos.take j).map attrSize).sum)) := by
  induction infos generalizing a o j with
  | nil => simp [buildCalls]
  | cons inf rest ih =>
    cases j with
    | zero => simp [buildCalls, attrSize]
    | succ j =>
      simp only [buildCalls, List.get?_cons_succ, ih, List.take_succ_cons, List.map_cons,
        List.sum_cons]
      cases hg : rest.get? j with
      | none => rfl
      | some inf2 =>
        simp [attrSize]
        try omega

theorem create_mesh3d_handle_inv {m : Mesh3DFile} {r : MeshCompiled}
    (h : create_mesh3d_handle m = some r) :
    ∃ vend records,
      vendOf m.starts_with_custom m.pos_attr.length m.cus_attrs = some vend ∧
      mapMO (recordBytes3D m) (List.range vend) = some records ∧
      r.stride = strideOf3D m ∧
      r.layout_calls = buildCalls (partInfos3D m) (strideOf3D m) 0 0 ∧
      r.buffer = records.flatten ∧
      r.handle.vert_count = vend ∧
      r.handle.has_indices = !m.ind_attr.isEmpty ∧
      r.index_buffer = (if !m.ind_attr.isEmpty then m.ind_attr else []) ∧
      r.handle.ind_count = (if !m.ind_attr.isEmpty then m.ind_attr.length else 0) ∧
      r.handle.layouts = r.layout_calls.map (fun c => (c.1, c.2.1)) := by
  rw [create_mesh3d_handle] at h
  cases hv : vendOf m.starts_with_custom m.pos_attr.length m.cus_attrs with
  | none => rw [hv] at h; simp at h
  | some vend =>
    rw [hv] at h
    cases hr : mapMO (recordBytes3D m) (List.range vend) with
    | none => simp only [hr] at h; exact absurd h (by simp)
    | some records =>
      simp only [hr, Option.some.injEq] at h
      subst h
      exact ⟨vend, records, rfl, hr, rfl, rfl, rfl, rfl, rfl, rfl, rfl, rfl⟩

theorem create_mesh2d_handle_inv {m : Mesh2DFile} {r : MeshCompiled}
    (h : create_mesh2d_handle m = some r) :
    ∃ vend records,
      vendOf m.starts_with_custom m.pos_attr.length m.cus_attrs = some vend ∧
      mapMO (recordBytes2D m) (List.range vend) = some records ∧
      r.stride = strideOf2D m ∧
      r.layout_calls = buildCalls (partInfos2D m) (strideOf2D m) 0 0 ∧
      r.buffer = records.flatten ∧
      r.handle.vert_count = vend ∧
      r.handle.has_indices = !m.ind_attr.isEmpty ∧
      r.index_buffer = (if !m.ind_attr.isEmpty then m.ind_attr else []) ∧
      r.handle.ind_count = (if !m.ind_attr.isEmpty then m.ind_attr.length else 0) ∧
      r.handle.layouts = r.layout_calls.map (fun c => (c.1, c.2.1)) := by
  rw [create_mesh2d_handle] at h
  cases hv : vendOf m.starts_with_custom m.pos_attr.length m.cus_attrs with
  | none => rw [hv] at h; simp at h
  | some vend =>
    rw [hv] at h
    cases hr : mapMO (recordBytes2D m) (List.range vend) with
    | none => simp only [hr] at h; exact absurd h (by simp)
    | some records =>
      simp only [hr, Option.some.injEq] at h
      subst h
      exact ⟨vend, records, rfl, hr, rfl, rfl, rfl, rfl, rfl, rfl, rfl, rfl⟩

theorem strideOf3D_eq_sum (m : Mesh3DFile) :
    strideOf3D m = ((partInfos3D m).map attrSize).sum := by
  rw [strideOf3D, partInfos3D]
  by_cases h1 : m.pos_attr.isEmpty <;> by_cases h2 : m.col_attr.isEmpty <;>
    by_cases h3 : m.uvm_attr.isEmpty <;> by_cases h4 : m.nrm_attr.isEmpty <;>
    simp [h1, h2, h3, h4, attrSize, pos3d_info, col_info, uvm_info, nrm_info,
      Function.comp_def] <;> ring

theorem strideOf2D_eq_sum (m : Mesh2DFile) :
    strideOf2D m = ((partInfos2D m).map attrSize).sum := by
  rw [strideOf2D, partInfos2D]
  by_cases h1 : m.pos_attr.isEmpty <;> by_cases h2 : m.col_attr.isEmpty <;>
    by_cases h3 : m.uvm_attr.isEmpty <;>
    simp [h1, h2, h3, attrSize, pos2d_info, col_info, uvm_info, Function.comp_def] <;> ring

theorem OBJ.parse_nonTriangle_inv {src : String} {l : String}
    (h : OBJ.parse src = some (.NonTriangle l)) :
    ∃ lc, scanList (rustLines src.data) ⟨[], [], [], []⟩ = .nonTriangle lc ∧
      l = String.mk lc := by
  rw [OBJ.parse] at h
  cases hscan : scanList (rustLines src.data) ⟨[], [], [], []⟩ with
  | abort => rw [hscan] at h; simp at h
  | nonTriangle lc =>
    simp only [hscan, Option.some.injEq, OBJ.NonTriangle.injEq] at h
    exact ⟨lc, rfl, h.symm⟩
  | ok st =>
    simp only [hscan] at h
    cases hver : st.verts with
    | nil => simp only [hver] at h; exact absurd h (by simp)
    | cons v0 rest =>
      simp only [hver] at h
      cases hloop : dedupLoop st.pools (decide (0 < v0.length)) (decide (1 < v0.length))
          (decide (2 < v0.length)) 0 (v0 :: rest) ⟨[], [], [], [], [], []⟩ with
      | none =>
        rw [show (⟨st.pos_data, st.uvm_data, st.nrm_data⟩ : Pools) = st.pools from rfl,
          hloop] at h
        simp at h
      | some d =>
        rw [show (⟨st.pos_data, st.uvm_data, st.nrm_data⟩ : Pools) = st.pools from rfl,
          hloop] at h
        simp at h

theorem OBJ.parse_of_scan_nonTriangle {src : String} {lc : List Char}
    (h : scanList (rustLines src.data) ⟨[], [], [], []⟩ = .nonTriangle lc) :
    OBJ.parse src = some (.NonTriangle (String.mk lc)) := by
  rw [OBJ.parse, h]

theorem OBJ.parse_none_of_no_faces {src : String}
    (h : ∀ raw ∈ rustLines src.data, isFaceLine raw = false) :
    OBJ.parse src = none := by
  rw [OBJ.parse]
  cases hscan : scanList (rustLines src.data) ⟨[], [], [], []⟩ with
  | abort => rfl
  | nonTriangle lc =>
    obtain ⟨raw, hfind, hl⟩ := scanList_nonTriangle_inv _ _ _ hscan
    have hmem : raw ∈ rustLines src.data := List.mem_of_find?_eq_some hfind
    have hbad : isBadFace raw = true := List.find?_some hfind
    rw [isBadFace, Bool.and_eq_true] at hbad
    have hface : isFaceLine raw = true := hbad.1
    rw [h raw hmem] at hface
    exact absurd hface (by simp)
  | ok st =>
    have hfilter : (rustLines src.data).filter isFaceLine = [] := by
      rw [List.filter_eq_nil_iff]
      intro raw hmem
      simp [h raw hmem]
    have hlen := (scanList_ok_inv _ _ _ hscan).1
    rw [hfilter] at hlen
    simp at hlen
    simp only [hlen]

theorem scan_verts_ne_nil_of_face {src : String} {st : ScanState}
    (hscan : scanList (rustLines src.data) ⟨[], [], [], []⟩ = .ok st)
    {raw : List Char} (hmem : raw ∈ rustLines src.data) (hface : isFaceLine raw = true) :
    st.verts ≠ [] := by
  have hlen := (scanList_ok_inv _ _ _ hscan).1
  have hmemf : raw ∈ (rustLines src.data).filter isFaceLine :=
    List.mem_filter.mpr ⟨hmem, hface⟩
  intro hnil
  rw [hnil] at hlen
  simp at hlen
  rw [hlen raw hmem] at hface
  exact absurd hface (by simp)

theorem mapMO_mem {α β : Type} {f : α → Option β} :
    ∀ {l : List α} {bs : List β} {b : β}, mapMO f l = some bs → b ∈ bs →
      ∃ a ∈ l, f a = some b := by
  intro l
  induction l with
  | nil =>
    intro bs b h hb
    simp only [mapMO, Option.some.injEq] at h
    subst h
    simp at hb
  | cons a as ih =>
    intro bs b h hb
    obtain ⟨b2, bs2, hfa, hrest, hr⟩ := mapMO_cons_some f h
    subst hr
    rcases List.mem_cons.mp hb with h1 | h1
    · exact ⟨a, List.mem_cons_self a as, h1 ▸ hfa⟩
    · obtain ⟨a2, ha2, hfa2⟩ := ih hrest h1
      exact ⟨a2, List.mem_cons_of_mem a ha2, hfa2⟩

/-! ## Claim theorems -/

/-- C3: evaluating Shader::set_sbo_at_slot as written: binding a storage
buffer with id 7 at slot S0 of a freshly created shader (12 empty slots in
each array) leaves the storage-buffer slot array completely untouched and
instead writes the id into the texture slot array. This contradicts the
claim, which requires the id to land in the storage-buffer slot array with
the texture slots unchanged; the sbo_ids field, the SBOSlot enum and
Shader::bind_storages (which reads sbo_ids) show the claim matches the
intent, so the source line writing tex_ids is the bug. -/
theorem C3_set_sbo_at_slot_bug :
    Shader.set_sbo_at_slot (Shader.new 1 false) ⟨7, 16⟩ TexSlot.S0 =
      some ⟨1, false, (List.replicate 12 none).set 0 (some 7), List.replicate 12 none⟩ ∧
    ((List.replicate 12 (none : Option Nat)).set 0 (some 7) ≠ List.replicate 12 none) := by
  constructor
  · rfl
  · decide

/-- C9: for Mesh3D and Mesh2D, is_visible() is the inclusive OR of the
visibility flag and non-emptiness of the mesh; therefore a mesh explicitly
hidden with set_visibility(false) but with a positive vertex count is still
reported visible, and the characterization is stable under any sequence of
set_visibility / toggle_visibility calls (which never change the vertex
count). -/
theorem C9_is_visible_or_nonempty :
    (∀ m : Mesh3D, m.is_visible = (m.visibility || decide (m.handle.vert_count ≠ 0))) ∧
    (∀ m : Mesh2D, m.is_visible = (m.visibility || decide (m.handle.vert_count ≠ 0))) ∧
    (∀ (m : Mesh3D) (ops : List VisOp),
      (m.applyVisOps ops).handle.vert_count = m.handle.vert_count ∧
      (m.applyVisOps ops).is_visible =
        ((m.applyVisOps ops).visibility || decide ((m.applyVisOps ops).handle.vert_count ≠ 0))) ∧
    (∀ (m : Mesh2D) (ops : List VisOp),
      (m.applyVisOps ops).handle.vert_count = m.handle.vert_count ∧
      (m.applyVisOps ops).is_visible =
        ((m.applyVisOps ops).visibility || decide ((m.applyVisOps ops).handle.vert_count ≠ 0))) ∧
    (∀ m : Mesh3D, 0 < m.handle.vert_count → (m.set_visibility false).is_visible = true) ∧
    (∀ m : Mesh2D, 0 < m.handle.vert_count → (m.set_visibility false).is_visible = true) := by
  have h3 : ∀ m : Mesh3D, m.is_visible = (m.visibility || decide (m.handle.vert_count ≠ 0)) := by
    intro m
    rw [Mesh3D.is_visible, Mesh3D.is_empty, Mesh3D.vertex_count]
    by_cases h : m.handle.vert_count = 0 <;> simp [h]
  have h2 : ∀ m : Mesh2D, m.is_visible = (m.visibility || decide (m.handle.vert_count ≠ 0)) := by
    intro m
    rw [Mesh2D.is_visible, Mesh2D.is_empty, Mesh2D.vertex_count]
    by_cases h : m.handle.vert_count = 0 <;> simp [h]
  have hv3 : ∀ (m : Mesh3D) (ops : List VisOp),
      (m.applyVisOps ops).handle.vert_count = m.handle.vert_count := by
    intro m ops
    induction ops generalizing m with
    | nil => rfl
    | cons op ops ih =>
      cases op with
      | set b => exact ih (m.set_visibility b)
      | toggle => exact ih m.toggle_visibility
  have hv2 : ∀ (m : Mesh2D) (ops : List VisOp),
      (m.applyVisOps ops).handle.vert_count = m.handle.vert_count := by
    intro m ops
    induction ops generalizing m with
    | nil => rfl
    | cons op ops ih =>
      cases op with
      | set b => exact ih (m.set_visibility b)
      | toggle => exact ih m.toggle_visibility
  refine ⟨h3, h2, fun m ops => ⟨hv3 m ops, h3 _⟩, fun m ops => ⟨hv2 m ops, h2 _⟩, ?_, ?_⟩
  · intro m hm
    rw [h3]
    simp [Mesh3D.set_visibility]
    omega
  · intro m hm
    rw [h2]
    simp [Mesh2D.set_visibility]
    omega

/-- Witness for C9 at a concrete mesh: a Mesh3D with 3 vertices that was
explicitly hidden is still reported visible. -/
theorem C9_is_visible_or_nonempty_witness :
    ((⟨true, ⟨[], .Triangles, false, 3, 0⟩, none⟩ : Mesh3D).set_visibility false).is_visible
      = true :=
  C9_is_visible_or_nonempty.2.2.2.2.1 ⟨true, ⟨[], .Triangles, false, 3, 0⟩, none⟩
    (by decide)

/-- C10: OBJ::parse reads verts[0] unconditionally, so a source with no
face line at all (only v/vt/vn data, or empty) makes that read go out of
bounds: parsing aborts (modelled none) and returns neither an empty parsed
mesh nor a typed error. With at least one face line, a completed scan has a
nonempty corner list, so the verts[0] read is in bounds. -/
theorem C10_verts_zero_out_of_bounds :
    (∀ src : String, (∀ raw ∈ rustLines src.data, isFaceLine raw = false) →
      OBJ.parse src = none) ∧
    (∀ (src : String) (st : ScanState),
      scanList (rustLines src.data) ⟨[], [], [], []⟩ = .ok st →
      (∃ raw ∈ rustLines src.data, isFaceLine raw = true) → st.verts ≠ []) := by
  constructor
  · intro src h
    exact OBJ.parse_none_of_no_faces h
  · intro src st hscan ⟨raw, hmem, hface⟩
    exact scan_verts_ne_nil_of_face hscan hmem hface

/-- Witness for C10: a source holding only position data parses to none,
and a one-triangle source has a nonempty corner list after scanning. -/
theorem C10_verts_zero_out_of_bounds_witness :
    OBJ.parse "v 1 2 3" = none ∧
    (⟨[(0, 0, 0)], [], [], [[0], [0], [0]]⟩ : ScanState).verts ≠ [] :=
  ⟨C10_verts_zero_out_of_bounds.1 "v 1 2 3" (by decide),
    C10_verts_zero_out_of_bounds.2 "v 0 0 0\nf 1 1 1" ⟨[(0, 0, 0)], [], [], [[0], [0], [0]]⟩
      (by decide) ⟨("f 1 1 1").data, by decide, by decide⟩⟩

/-- C2 counterexample: the all-empty mesh source (every fixed attribute
buffer empty, no custom attribute, empty index buffer) does not compile to
a handle: both handle builders, and ship(), take the starts_with_custom
branch and index the empty custom-attribute list, a panic (modelled none) —
not a valid vertex-count-0 handle. -/
theorem C2_empty_mesh_counterexample :
    create_mesh3d_handle Mesh3DFile.empty = none ∧
    create_mesh2d_handle Mesh2DFile.empty = none ∧
    Mesh3DFile.ship Mesh3DFile.empty = none ∧
    Mesh2DFile.ship Mesh2DFile.empty = none := by
  refine ⟨rfl, rfl, rfl, rfl⟩

/-- C2 amended: a mesh source with every fixed attribute empty, no custom
attribute and no indices makes compilation abort on an out-of-bounds index
into the custom-attribute list; a valid, empty, invisible handle with
vertex count 0 is produced instead when at least one custom attribute with
an empty data store (and nonzero element size) is attached. -/
theorem C2_empty_mesh_amended :
    (create_mesh3d_handle Mesh3DFile.empty = none ∧
      create_mesh2d_handle Mesh2DFile.empty = none) ∧
    (∀ c : CustomATTR, c.data = [] → 0 < c.info.byte_count * c.info.elem_count →
      ∃ r : MeshCompiled,
        create_mesh3d_handle { Mesh3DFile.empty with cus_attrs := [c] } = some r ∧
        r.handle.vert_count = 0 ∧ r.buffer = [] ∧ r.handle.has_indices = false) ∧
    (∀ c : CustomATTR, c.data = [] → 0 < c.info.byte_count * c.info.elem_count →
      ∃ r : MeshCompiled,
        create_mesh2d_handle { Mesh2DFile.empty with cus_attrs := [c] } = some r ∧
        r.handle.vert_count = 0 ∧ r.buffer = [] ∧ r.handle.has_indices = false) := by
  refine ⟨⟨rfl, rfl⟩, ?_, ?_⟩
  · intro c hdata hsize
    have hv : vendOf true 0 [c] = some 0 := by
      have hne : ¬(c.info.byte_count * c.info.elem_count = 0) := by omega
      simp [vendOf, hne, hdata]
    rw [create_mesh3d_handle]
    have hswc : ({ Mesh3DFile.empty with cus_attrs := [c] } : Mesh3DFile).starts_with_custom
        = true := rfl
    rw [show ({ Mesh3DFile.empty with cus_attrs := [c] } : Mesh3DFile).pos_attr.length
      = 0 from rfl, hswc, hv]
    exact ⟨_, rfl, rfl, rfl, rfl⟩
  · intro c hdata hsize
    have hv : vendOf true 0 [c] = some 0 := by
      have hne : ¬(c.info.byte_count * c.info.elem_count = 0) := by omega
      simp [vendOf, hne, hdata]
    rw [create_mesh2d_handle]
    have hswc : ({ Mesh2DFile.empty with cus_attrs := [c] } : Mesh2DFile).starts_with_custom
        = true := rfl
    rw [show ({ Mesh2DFile.empty with cus_attrs := [c] } : Mesh2DFile).pos_attr.length
      = 0 from rfl, hswc, hv]
    exact ⟨_, rfl, rfl, rfl, rfl⟩

/-- Witness for C2 amended at a concrete custom attribute (one f32 element,
empty store): compilation yields an empty handle with vertex count 0. -/
theorem C2_empty_mesh_amended_witness :
    ∃ r : MeshCompiled,
      create_mesh3d_handle
        { Mesh3DFile.empty with cus_attrs := [⟨⟨1, 4, .F32⟩, []⟩] } = some r ∧
      r.handle.vert_count = 0 ∧ r.buffer = [] ∧ r.handle.has_indices = false :=
  C2_empty_mesh_amended.2.1 ⟨⟨1, 4, .F32⟩, []⟩ rfl (by decide)

/-- C6: mesh compilation computes the stride as the sum of
element_count * element_byte_width over exactly the participating (non
empty) attributes, taken in the canonical order position, color, UV,
normal, then custom attributes in attachment order (the list partInfos3D /
partInfos2D); the set_attr_layout call trace assigns slots 0, 1, 2, ... in
participation order, passes the stride to every call, and gives the j-th
participating attribute the local offset equal to the sum of the sizes of
the attributes before it. In particular, for a mesh where only
position (3 x f32) and UV (2 x f32) participate, the stride is 20 bytes
and the UV call carries slot 1 and local offset 12. -/
theorem C6_layout_stride :
    (∀ (m : Mesh3DFile) (r : MeshCompiled), create_mesh3d_handle m = some r →
      r.stride = ((partInfos3D m).map attrSize).sum ∧
      r.layout_calls.length = (partInfos3D m).length ∧
      (∀ j : Nat, r.layout_calls.get? j = ((partInfos3D m).get? j).map
        (fun inf => (inf, j, r.stride, (((partInfos3D m).take j).map attrSize).sum))) ∧
      r.handle.layouts = r.layout_calls.map (fun call => (call.1, call.2.1))) ∧
    (∀ (m : Mesh2DFile) (r : MeshCompiled), create_mesh2d_handle m = some r →
      r.stride = ((partInfos2D m).map attrSize).sum ∧
      r.layout_calls.length = (partInfos2D m).length ∧
      (∀ j : Nat, r.layout_calls.get? j = ((partInfos2D m).get? j).map
        (fun inf => (inf, j, r.stride, (((partInfos2D m).take j).map attrSize).sum))) ∧
      r.handle.layouts = r.layout_calls.map (fun call => (call.1, call.2.1))) ∧
    (∃ r : MeshCompiled, create_mesh3d_handle mPosUvm = some r ∧ r.stride = 20 ∧
      r.layout_calls = [(pos3d_info, 0, 20, 0), (uvm_info, 1, 20, 12)]) := by
  refine ⟨?_, ?_, ?_⟩
  · intro m r h
    obtain ⟨vend, records, hv, hr, hstride, hcalls, hbuf, hvc, hhi, hib, hic, hlay⟩ :=
      create_mesh3d_handle_inv h
    refine ⟨hstride.trans (strideOf3D_eq_sum m), ?_, ?_, hlay⟩
    · rw [hcalls, buildCalls_length]
    · intro j
      rw [hcalls, buildCalls_get?, hstride, strideOf3D_eq_sum]
      simp
  · intro m r h
    obtain ⟨vend, records, hv, hr, hstride, hcalls, hbuf, hvc, hhi, hib, hic, hlay⟩ :=
      create_mesh2d_handle_inv h
    refine ⟨hstride.trans (strideOf2D_eq_sum m), ?_, ?_, hlay⟩
    · rw [hcalls, buildCalls_length]
    · intro j
      rw [hcalls, buildCalls_get?, hstride, strideOf2D_eq_sum]
      simp
  · exact ⟨_, rfl, rfl, rfl⟩

/-- Witness for C6 at the concrete position + UV mesh: stride 20 and UV
local offset 12 at slot 1, obtained through the general conjunct. -/
theorem C6_layout_stride_witness :
    ((create_mesh3d_handle mPosUvm).map (fun r => r.stride) = some 20) ∧
    (∃ r : MeshCompiled, create_mesh3d_handle mPosUvm = some r ∧
      r.stride = ((partInfos3D mPosUvm).map attrSize).sum ∧
      r.layout_calls.get? 1 = some (uvm_info, 1, 20, 12)) := by
  obtain ⟨r, hr, hstride, hcalls⟩ := C6_layout_stride.2.2
  refine ⟨by rw [hr]; simp [hstride], r, hr, (C6_layout_stride.1 mPosUvm r hr).1, ?_⟩
  rw [hcalls]
  rfl

/-- C7: whenever mesh compilation succeeds, the interleaved byte buffer it
hands to the upload call has length exactly vertex_count * stride, and it
is empty when vertex_count is 0. (The claim assumes equal participating
buffer lengths; compilation success already enforces that every
participating read stays in bounds, so the theorem needs no further
hypothesis.) -/
theorem C7_interleave_completeness :
    (∀ (m : Mesh3DFile) (r : MeshCompiled), create_mesh3d_handle m = some r →
      r.buffer.length = r.handle.vert_count * r.stride ∧
      (r.handle.vert_count = 0 → r.buffer = [])) ∧
    (∀ (m : Mesh2DFile) (r : MeshCompiled), create_mesh2d_handle m = some r →
      r.buffer.length = r.handle.vert_count * r.stride ∧
      (r.handle.vert_count = 0 → r.buffer = [])) := by
  constructor
  · intro m r h
    obtain ⟨vend, records, hv, hr, hstride, hcalls, hbuf, hvc, hhi, hib, hic, hlay⟩ :=
      create_mesh3d_handle_inv h
    have hlenrec : ∀ b ∈ records, b.length = strideOf3D m := by
      intro b hb
      obtain ⟨i, hi, hrec⟩ := mapMO_mem hr hb
      exact recordBytes3D_length hrec
    have hlen : records.length = vend := by
      rw [mapMO_length _ hr, List.length_range]
    constructor
    · rw [hbuf, flatten_const_length hlenrec, hlen, hvc, hstride]
    · intro h0
      rw [hvc] at h0
      subst h0
      rw [hbuf]
      have : records = [] := List.length_eq_zero.mp hlen
      rw [this]
      rfl
  · intro m r h
    obtain ⟨vend, records, hv, hr, hstride, hcalls, hbuf, hvc, hhi, hib, hic, hlay⟩ :=
      create_mesh2d_handle_inv h
    have hlenrec : ∀ b ∈ records, b.length = strideOf2D m := by
      intro b hb
      obtain ⟨i, hi, hrec⟩ := mapMO_mem hr hb
      exact recordBytes2D_length hrec
    have hlen : records.length = vend := by
      rw [mapMO_length _ hr, List.length_range]
    constructor
    · rw [hbuf, flatten_const_length hlenrec, hlen, hvc, hstride]
    · intro h0
      rw [hvc] at h0
      subst h0
      rw [hbuf]
      have : records = [] := List.length_eq_zero.mp hlen
      rw [this]
      rfl

/-- Witness for C7 at the concrete position + UV mesh (1 vertex, stride
20, 20-byte buffer) and at an empty-custom mesh (0 vertices, empty
buffer). -/
theorem C7_interleave_completeness_witness :
    (∃ r : MeshCompiled, create_mesh3d_handle mPosUvm = some r ∧
      r.buffer.length = r.handle.vert_count * r.stride ∧
      r.handle.vert_count = 1 ∧ r.stride = 20 ∧ r.buffer.length = 20) ∧
    (∃ r : MeshCompiled,
      create_mesh3d_handle { Mesh3DFile.empty with cus_attrs := [⟨⟨1, 4, .F32⟩, []⟩] }
        = some r ∧ r.handle.vert_count = 0 ∧ r.buffer = []) := by
  constructor
  · cases hcr : create_mesh3d_handle mPosUvm with
    | none => exact absurd hcr (by decide)
    | some r =>
      have hmain := C7_interleave_completeness.1 mPosUvm r hcr
      have hv : r.handle.vert_count = 1 := by
        have h2 : (create_mesh3d_handle mPosUvm).map (fun x => x.handle.vert_count)
            = some 1 := by decide
        rw [hcr] at h2
        simpa using h2
      have hs : r.stride = 20 := by
        have h2 : (create_mesh3d_handle mPosUvm).map (fun x => x.stride) = some 20 := by
          decide
        rw [hcr] at h2
        simpa using h2
      exact ⟨r, rfl, hmain.1, hv, hs, by rw [hmain.1, hv, hs]⟩
  · cases hcr : create_mesh3d_handle
        { Mesh3DFile.empty with cus_attrs := [⟨⟨1, 4, .F32⟩, []⟩] } with
    | none => exact absurd hcr (by decide)
    | some r =>
      have hv : r.handle.vert_count = 0 := by
        have h2 : (create_mesh3d_handle
            { Mesh3DFile.empty with cus_attrs := [⟨⟨1, 4, .F32⟩, []⟩] }).map
              (fun x => x.handle.vert_count) = some 0 := by decide
        rw [hcr] at h2
        simpa using h2
      exact ⟨r, rfl, hv, (C7_interleave_completeness.1 _ r hcr).2 hv⟩

/-- C1: for every OBJ source that parses (all faces triangles, references
in range), with ks the list of corner keys — one (pos, uv, nrm) sub-index
tuple per face corner, 3 per face line — the position buffer has exactly
one entry per distinct key (K = (firstOccur ks).length), the index buffer
has exactly 3 entries per face line, every index value is below K, and the
position buffer is never longer than the index buffer. -/
theorem C1_dedup_correctness :
    ∀ (src : String) (p : List Vec3) (c : List Vec4) (u : List Vec2) (n : List Vec3)
      (ind : List Nat),
      OBJ.parse src = some (.Parsed p c u n ind) →
      ∃ st v0 rest ks,
        scanList (rustLines src.data) ⟨[], [], [], []⟩ = .ok st ∧
        st.verts = v0 :: rest ∧
        mapMO (cornerKey (decide (0 < v0.length)) (decide (1 < v0.length))
          (decide (2 < v0.length))) st.verts = some ks ∧
        p.length = (firstOccur ks).length ∧
        ind.length = 3 * faceLineCount src ∧
        (∀ i ∈ ind, i < p.length) ∧
        p.length ≤ ind.length := by
  intro src p c u n ind h
  obtain ⟨st, v0, rest, ks, hscan, hver, hkeys, hrange, hp, hc, hu, hn, hind⟩ :=
    OBJ.parse_char h
  refine ⟨st, v0, rest, ks, hscan, hver, hkeys, ?_, ?_, ?_, ?_⟩
  · rw [hp, List.length_map]
  · rw [hind, List.length_map]
    have hks : ks.length = st.verts.length := mapMO_length _ hkeys
    have hvl := (scanList_ok_inv _ _ _ hscan).1
    rw [hks, hvl, faceLineCount]
    simp
  · intro i hi
    rw [hind] at hi
    obtain ⟨k, hk, hik⟩ := List.mem_map.mp hi
    rw [hp, List.length_map, ← hik]
    exact idxOf_lt_length (mem_firstOccur.mpr hk)
  · rw [hp, hind, List.length_map, List.length_map]
    exact firstOccur_length_le ks

/-- Witness for C1 at a two-triangle square: 6 corners, 4 distinct keys,
4 positions, 6 indices all below 4. -/
theorem C1_dedup_correctness_witness :
    ∃ st v0 rest ks,
      scanList (rustLines ("v 0 0 0\nv 1 0 0\nv 0 1 0\nv 1 1 0\nf 1 2 3\nf 2 4 3" :
        String).data) ⟨[], [], [], []⟩ = .ok st ∧
      st.verts = v0 :: rest ∧
      mapMO (cornerKey (decide (0 < v0.length)) (decide (1 < v0.length))
        (decide (2 < v0.length))) st.verts = some ks ∧
      ([(0, 0, 0), (1, 0, 0), (0, 1, 0), (1, 1, 0)] : List Vec3).length =
        (firstOccur ks).length ∧
      ([0, 1, 2, 1, 3, 2] : List Nat).length =
        3 * faceLineCount "v 0 0 0\nv 1 0 0\nv 0 1 0\nv 1 1 0\nf 1 2 3\nf 2 4 3" ∧
      (∀ i ∈ ([0, 1, 2, 1, 3, 2] : List Nat),
        i < ([(0, 0, 0), (1, 0, 0), (0, 1, 0), (1, 1, 0)] : List Vec3).length) ∧
      ([(0, 0, 0), (1, 0, 0), (0, 1, 0), (1, 1, 0)] : List Vec3).length ≤
        ([0, 1, 2, 1, 3, 2] : List Nat).length :=
  C1_dedup_correctness "v 0 0 0\nv 1 0 0\nv 0 1 0\nv 1 1 0\nf 1 2 3\nf 2 4 3"
    [(0, 0, 0), (1, 0, 0), (0, 1, 0), (1, 1, 0)]
    [(1, 1, 1, 1), (1, 1, 1, 1), (1, 1, 1, 1), (1, 1, 1, 1)]
    [(0, 0), (0, 1), (1, 0), (0, 1)]
    [(1, 1, 1), (1, 1, 1), (1, 1, 1), (1, 1, 1)]
    [0, 1, 2, 1, 3, 2] (by decide)

/-- C5: for every parsed OBJ, the buffers of the newly allocated (unique)
vertices are exactly described by posVal, def_col, uvmVal and nrmVal: a
vertex whose position sub-index is absent stores [0,0,0]; an absent UV
sub-index stores the per-corner default def_uvm (i % 3) — (0,0), (0,1),
(1,0) for corner positions 0, 1, 2, with i the corner at which the vertex
was first allocated (its key's first occurrence); an absent normal
sub-index stores [1,1,1]; and every unique vertex stores the color
[1,1,1,1] regardless of the source. -/
theorem C5_fallback_defaults :
    ∀ (src : String) (p : List Vec3) (c : List Vec4) (u : List Vec2) (n : List Vec3)
      (ind : List Nat),
      OBJ.parse src = some (.Parsed p c u n ind) →
      ∃ st v0 rest ks,
        scanList (rustLines src.data) ⟨[], [], [], []⟩ = .ok st ∧
        st.verts = v0 :: rest ∧
        mapMO (cornerKey (decide (0 < v0.length)) (decide (1 < v0.length))
          (decide (2 < v0.length))) st.verts = some ks ∧
        p = (firstOccur ks).map (posVal st.pools) ∧
        c = List.replicate (firstOccur ks).length def_col ∧
        u = (firstOccur ks).map (fun k => uvmVal st.pools k (idxOf k ks)) ∧
        n = (firstOccur ks).map (nrmVal st.pools) := by
  intro src p c u n ind h
  obtain ⟨st, v0, rest, ks, hscan, hver, hkeys, hrange, hp, hc, hu, hn, hind⟩ :=
    OBJ.parse_char h
  exact ⟨st, v0, rest, ks, hscan, hver, hkeys, hp, hc, hu, hn⟩

/-- Witness for C5 at the two-triangle square: the source has neither UV
nor normal sub-indices nor colors, so the parsed buffers hold the
per-corner UV defaults, [1,1,1] normals and [1,1,1,1] colors. -/
theorem C5_fallback_defaults_witness :
    ∃ st v0 rest ks,
      scanList (rustLines ("v 0 0 0\nv 1 0 0\nv 0 1 0\nv 1 1 0\nf 1 2 3\nf 2 4 3" :
        String).data) ⟨[], [], [], []⟩ = .ok st ∧
      st.verts = v0 :: rest ∧
      mapMO (cornerKey (decide (0 < v0.length)) (decide (1 < v0.length))
        (decide (2 < v0.length))) st.verts = some ks ∧
      ([(0, 0, 0), (1, 0, 0), (0, 1, 0), (1, 1, 0)] : List Vec3) =
        (firstOccur ks).map (posVal st.pools) ∧
      ([(1, 1, 1, 1), (1, 1, 1, 1), (1, 1, 1, 1), (1, 1, 1, 1)] : List Vec4) =
        List.replicate (firstOccur ks).length def_col ∧
      ([(0, 0), (0, 1), (1, 0), (0, 1)] : List Vec2) =
        (firstOccur ks).map (fun k => uvmVal st.pools k (idxOf k ks)) ∧
      ([(1, 1, 1), (1, 1, 1), (1, 1, 1), (1, 1, 1)] : List Vec3) =
        (firstOccur ks).map (nrmVal st.pools) :=
  C5_fallback_defaults "v 0 0 0\nv 1 0 0\nv 0 1 0\nv 1 1 0\nf 1 2 3\nf 2 4 3"
    [(0, 0, 0), (1, 0, 0), (0, 1, 0), (1, 1, 0)]
    [(1, 1, 1, 1), (1, 1, 1, 1), (1, 1, 1, 1), (1, 1, 1, 1)]
    [(0, 0), (0, 1), (1, 0), (0, 1)]
    [(1, 1, 1), (1, 1, 1), (1, 1, 1), (1, 1, 1)]
    [0, 1, 2, 1, 3, 2] (by decide)

/-- C8: the UV pool built by a scan is exactly the concatenation of the
per-vt-line contributions, each the pair of parsed raw components with the
second (V) component stored flipped; vtFlipped applies the flip exactly
once — structurally, its V component is the single subtraction
1 - (parsed v), and in rational value it equals 1 - v; every UV entry of
the final parsed buffer is either such a pool entry or one of the three
per-corner defaults, so no entry is flipped a second time at vertex
assembly; and OBJ::parse is a pure function, so re-parsing the same source
from scratch yields the identical (singly flipped) buffers. -/
theorem C8_uv_flip :
    (∀ (src : String) (st : ScanState),
      scanList (rustLines src.data) ⟨[], [], [], []⟩ = .ok st →
      st.uvm_data = ((rustLines src.data).map uvmContrib).flatten ∧
      (∀ (p : List Vec3) (c : List Vec4) (u : List Vec2) (n : List Vec3) (ind : List Nat),
        OBJ.parse src = some (.Parsed p c u n ind) →
        ∀ x ∈ u, x ∈ st.uvm_data ∨ x = def_uvm 0 ∨ x = def_uvm 1 ∨ x = def_uvm 2)) ∧
    (∀ ws : List (List Char),
      (vtFlipped ws).2 = 1 - (parseF32 ((ws.get? 2).getD [])).getD 0 ∧
      ((vtFlipped ws).2).val = 1 - ((parseF32 ((ws.get? 2).getD [])).getD 0).val) ∧
    (∀ src : String, OBJ.parse src = OBJ.parse src) := by
  refine ⟨?_, ?_, fun _ => rfl⟩
  · intro src st hscan
    constructor
    · have h := (scanList_ok_inv _ _ _ hscan).2
      simpa using h
    · intro p c u n ind hparse x hx
      obtain ⟨st2, v0, rest, ks, hscan2, hver, hkeys, hrange, hp, hc, hu, hn, hind⟩ :=
        OBJ.parse_char hparse
      have hst : st2 = st := by
        rw [hscan] at hscan2
        exact (ScanResult.ok.injEq _ _).mp hscan2.symm
      subst hst
      rw [hu] at hx
      obtain ⟨k, hk, hxk⟩ := List.mem_map.mp hx
      rw [← hxk, uvmVal]
      cases hku : k.2.1 with
      | some id =>
        left
        show (st2.pools.uvm_data.get? id).getD (0, 0) ∈ st2.uvm_data
        have hid : id < st2.pools.uvm_data.length :=
          (hrange k (mem_firstOccur.mp hk)).2.1 id hku
        cases hg : st2.pools.uvm_data.get? id with
        | none =>
          rw [List.get?_eq_none] at hg
          omega
        | some y =>
          simp only [Option.getD_some]
          exact List.get?_mem hg
      | none =>
        right
        show def_uvm (idxOf k ks % 3) = def_uvm 0 ∨ def_uvm (idxOf k ks % 3) = def_uvm 1 ∨
          def_uvm (idxOf k ks % 3) = def_uvm 2
        have h3 : idxOf k ks % 3 = 0 ∨ idxOf k ks % 3 = 1 ∨ idxOf k ks % 3 = 2 := by
          omega
        rcases h3 with h3 | h3 | h3 <;> rw [h3] <;> simp
  · intro ws
    refine ⟨rfl, ?_⟩
    show ((1 : F32) - (parseF32 ((ws.get? 2).getD [])).getD 0).val = _
    rw [F32.val_sub, F32.val_ofNat]
    norm_num

/-- Witness for C8: scanning a single vt line with V component 0.75 stores
(0.25, 1 - 0.75), and the flipped value of that line equals 1 - 0.75 as a
rational. -/
theorem C8_uv_flip_witness :
    ((⟨[], [(⟨25, 2⟩, (1 : F32) - ⟨75, 2⟩)], [], []⟩ : ScanState).uvm_data =
      ((rustLines ("vt 0.25 0.75" : String).data).map uvmContrib).flatten) ∧
    (vtFlipped [['v', 't'], ['0', '.', '2', '5'], ['0', '.', '7', '5']]).2.val =
      1 - ((parseF32 (([['v', 't'], ['0', '.', '2', '5'], ['0', '.', '7', '5']].get? 2).getD
        [])).getD 0).val :=
  ⟨(C8_uv_flip.1 "vt 0.25 0.75" ⟨[], [(⟨25, 2⟩, (1 : F32) - ⟨75, 2⟩)], [], []⟩
      (by decide)).1,
    (C8_uv_flip.2.1 [['v', 't'], ['0', '.', '2', '5'], ['0', '.', '7', '5']]).2⟩

/-- C4 counterexample: the source consisting of the malformed data line
"v 1" followed by the four-corner face line "f 1 2 3 4" contains a face
line with 4 corner tokens, yet OBJ::parse does not return a NonTriangle
failure for it: the earlier data line panics first (reading its third
component is out of bounds), so parsing aborts (none) with no failure
payload naming the face line. -/
theorem C4_triangle_only_counterexample :
    OBJ.parse "v 1\nf 1 2 3 4" = none ∧
    ("f 1 2 3 4").data ∈ rustLines ("v 1\nf 1 2 3 4" : String).data ∧
    isBadFace ("f 1 2 3 4").data = true := by
  refine ⟨rfl, by decide, by decide⟩

/-- C4 amended: OBJ::parse returns a NonTriangle failure only for sources
containing a face line with a corner count other than 3, and the payload
is the first such line, trimmed; conversely, a face line with 4 or 5 (or
any non-3) corner tokens produces exactly that failure provided the scan of
the lines before it completes (a malformed earlier data line or an earlier
face corner token 0 panics first); a source whose face lines all have
exactly 3 corner tokens never yields a NonTriangle failure; and the
failure is propagated by Mesh3DFile::from_path as a NotTriangle error
carrying the path and the offending line text. -/
theorem C4_triangle_only_amended :
    (∀ (src : String) (l : String), OBJ.parse src = some (.NonTriangle l) →
      ∃ raw, (rustLines src.data).find? isBadFace = some raw ∧
        l = String.mk (trimChars raw)) ∧
    (∀ (src : String) (pre : List (List Char)) (raw : List Char) (post : List (List Char))
      (st1 : ScanState),
      rustLines src.data = pre ++ raw :: post → isBadFace raw = true →
      scanList pre ⟨[], [], [], []⟩ = .ok st1 →
      OBJ.parse src = some (.NonTriangle (String.mk (trimChars raw)))) ∧
    (∀ src : String, (∀ raw ∈ rustLines src.data, isBadFace raw = false) →
      ∀ l : String, OBJ.parse src ≠ some (.NonTriangle l)) ∧
    (∀ (src path l : String), OBJ.parse src = some (.NonTriangle l) →
      Mesh3DFile.fromObjSource path src =
        some (.error ⟨.NotTriangle, path ++ " -> line " ++ l⟩)) := by
  refine ⟨?_, ?_, ?_, ?_⟩
  · intro src l h
    obtain ⟨lc, hscan, hl⟩ := OBJ.parse_nonTriangle_inv h
    obtain ⟨raw, hfind, hlc⟩ := scanList_nonTriangle_inv _ _ _ hscan
    exact ⟨raw, hfind, by rw [hl, hlc]⟩
  · intro src pre raw post st1 hlines hbad hpre
    have hscan : scanList (rustLines src.data) ⟨[], [], [], []⟩ =
        .nonTriangle (trimChars raw) := by
      rw [hlines]
      exact scanList_first_badFace pre raw post _ st1 hpre hbad
    exact OBJ.parse_of_scan_nonTriangle hscan
  · intro src hall l h
    obtain ⟨lc, hscan, hl⟩ := OBJ.parse_nonTriangle_inv h
    obtain ⟨raw, hfind, hlc⟩ := scanList_nonTriangle_inv _ _ _ hscan
    have hmem : raw ∈ rustLines src.data := List.mem_of_find?_eq_some hfind
    have hbad : isBadFace raw = true := List.find?_some hfind
    rw [hall raw hmem] at hbad
    exact absurd hbad (by simp)
  · intro src path l h
    rw [Mesh3DFile.fromObjSource, h]

/-- Witness for C4 amended: a well-formed position line followed by a
four-corner face line produces the NonTriangle failure naming that line,
and from_path turns it into the NotTriangle error text. -/
theorem C4_triangle_only_amended_witness :
    OBJ.parse "v 0 0 0\nf 1 1 1 1" = some (.NonTriangle "f 1 1 1 1") ∧
    Mesh3DFile.fromObjSource "cube.obj" "v 0 0 0\nf 1 1 1 1" =
      some (.error ⟨.NotTriangle, "cube.obj -> line f 1 1 1 1"⟩) := by
  have h := C4_triangle_only_amended.2.1 "v 0 0 0\nf 1 1 1 1"
    [("v 0 0 0").data] ("f 1 1 1 1").data [] ⟨[(0, 0, 0)], [], [], []⟩
    (by decide) (by decide) (by decide)
  exact ⟨h, C4_triangle_only_amended.2.2.2 "v 0 0 0\nf 1 1 1 1" "cube.obj" _ h⟩
